import Mathlib

/-!
# The worker loop of `ulalaca::ipc::IPCConnection`

A shallow embedding of `IPCConnection::workerLoop` (`IPCConnection.workerloop.cpp`).

* The connection object is a record of its two task queues, its liveness flag, its
  termination flag and the sequence of calls the worker has made so far (socket calls and
  completion-handle resolutions), oldest first.
* The socket and the caller threads are the environment: each iteration of the main loop is
  run against an `Env` that says which caller requests arrived while the worker was blocked
  in `poll`, what `poll` reported, and what `write` and `read` return if they are called.
* `size_t` is 64 bits wide; `size - read` and `read += retval` wrap modulo `2 ^ 64`.
* A task buffer is a list of cells, `none` for a byte of the `malloc`ed block that has not
  been written yet. `malloc` is taken to succeed, and `LOG` calls are left out.
-/

namespace ulalaca.ipc

/-! ## Machine types and constants -/

/-- One `uint8_t`. -/
abbrev Byte := Fin 256

/-- The number of values of a `size_t`, `2 ^ 64`. -/
def SIZE_T_MOD : Nat := 18446744073709551616

/-- The expression `a - b` on two `size_t` values. -/
def subSizeT (a b : Nat) : Nat :=
  (((a : Int) - (b : Int)) % (SIZE_T_MOD : Int)).toNat

/-- The statement `read += retval` with `read` a `size_t` and `retval` a `ssize_t`:
the new value of `read`. -/
def addSizeT (read : Nat) (retval : Int) : Nat :=
  (((read : Int) + retval) % (SIZE_T_MOD : Int)).toNat

/-- The constant `MAX_RW_SIZE` of `workerLoop`. -/
def MAX_RW_SIZE : Nat := 8192

/-- The bit `POLLIN` of `<poll.h>`. -/
def POLLIN : Nat := 0x001

/-- The bit `POLLOUT` of `<poll.h>`. -/
def POLLOUT : Nat := 0x004

/-- The bit `POLLERR` of `<poll.h>`. -/
def POLLERR : Nat := 0x008

/-- The bit `POLLHUP` of `<poll.h>`. -/
def POLLHUP : Nat := 0x010

/-- The value `EAGAIN` of `<errno.h>`. -/
def EAGAIN : Int := 11

/-! ## Data model -/

/-- Modelled from the spec: the record `WriteTask`, declared in `IPCConnection.hpp`
(not among the sources): the bytes to transmit and their number. -/
structure WriteTask where
  size : Nat
  data : List Byte
deriving DecidableEq, Repr

/-- Modelled from the spec: the record `ReadTask`, declared in `IPCConnection.hpp`
(not among the sources). `promise` names the completion handle of the task; `buffer` is
`none` for the null pointer. -/
structure ReadTask where
  size : Nat
  promise : Nat
  buffer : Option (List (Option Byte))
  read : Nat
deriving DecidableEq, Repr

/-- What the worker does that is visible outside the connection object. -/
inductive Event
  | poll (events : Nat) (timeout : Int)
  | write (data : List Byte) (size : Nat)
  | read (promise : Nat) (offset : Nat) (len : Nat)
  | setValue (promise : Nat) (buffer : List (Option Byte))
  | setException (promise : Nat) (what : String)
deriving DecidableEq, Repr

/-- The members of `IPCConnection` that `workerLoop` uses, and the calls made so far. -/
structure IPCConnection where
  writeTasks : List WriteTask
  readTasks : List ReadTask
  isGood : Bool
  isWorkerTerminated : Bool
  trace : List Event
deriving DecidableEq, Repr

/-- The outcome of one `_socket->read` call: the value returned, the value of `errno` when it
is tested afterwards, and the bytes the peer had ready (the first `retval` of them are
stored at the destination). -/
structure SockRead where
  retval : Int
  errno : Int
  bytes : List Byte
deriving DecidableEq, Repr

/-- Modelled from the spec: the caller API (`enqueue_read`, `enqueue_write`,
`request_termination`), implemented in `IPCConnection.cpp` (not among the sources). -/
inductive Call
  | enqueueRead (size : Nat) (promise : Nat)
  | enqueueWrite (data : List Byte) (size : Nat)
  | requestTermination
deriving DecidableEq, Repr

/-- The environment of one iteration of the main loop. -/
structure Env where
  calls : List Call
  revents : Nat
  writeRet : Int
  readRes : SockRead
deriving DecidableEq, Repr

/-! ## Caller side -/

/-- Modelled from the spec: one caller request. `push` appends to the tail of the queue; a
new read task has no buffer yet and no progress. -/
def applyCall (c : IPCConnection) : Call → IPCConnection
  | Call.enqueueRead size promise =>
      { c with readTasks := c.readTasks ++ [ReadTask.mk size promise none 0] }
  | Call.enqueueWrite data size =>
      { c with writeTasks := c.writeTasks ++ [WriteTask.mk size data] }
  | Call.requestTermination => { c with isWorkerTerminated := true }

/-- Modelled from the spec: a sequence of caller requests, in the order they take the
queue lock. -/
def applyCalls (c : IPCConnection) (calls : List Call) : IPCConnection :=
  calls.foldl applyCall c

/-- The read tasks a sequence of caller requests enqueues, in order. -/
def pushedReads : List Call → List ReadTask
  | [] => []
  | Call.enqueueRead size promise :: rest => ReadTask.mk size promise none 0 :: pushedReads rest
  | _ :: rest => pushedReads rest

/-- The write tasks a sequence of caller requests enqueues, in order. -/
def pushedWrites : List Call → List WriteTask
  | [] => []
  | Call.enqueueWrite data size :: rest => WriteTask.mk size data :: pushedWrites rest
  | _ :: rest => pushedWrites rest

/-! ## The lambdas of `workerLoop` -/

/-- The lambda `isWriteQueueEmpty`. -/
def isWriteQueueEmpty (c : IPCConnection) : Bool := c.writeTasks.isEmpty

/-- The lambda `nextWriteTask`: the front of the queue (`none` on an empty queue, where the
C++ call is undefined). -/
def nextWriteTask (c : IPCConnection) : Option WriteTask := c.writeTasks.head?

/-- The lambda `popWriteTask`. -/
def popWriteTask (c : IPCConnection) : IPCConnection :=
  { c with writeTasks := c.writeTasks.tail }

/-- The lambda `isReadQueueEmpty`. -/
def isReadQueueEmpty (c : IPCConnection) : Bool := c.readTasks.isEmpty

/-- The lambda `nextReadTask`. -/
def nextReadTask (c : IPCConnection) : Option ReadTask := c.readTasks.head?

/-- The lambda `popReadTask`. -/
def popReadTask (c : IPCConnection) : IPCConnection :=
  { c with readTasks := c.readTasks.tail }

/-! ## The loop body -/

/-- Record one call in the trace. -/
def emit (c : IPCConnection) (e : Event) : IPCConnection :=
  { c with trace := c.trace ++ [e] }

/-- Lines 62-70: the write step. `ret` is what `_socket->write` returns if it is called. -/
def serviceWrite (c : IPCConnection) (canWrite : Bool) (ret : Int) : IPCConnection :=
  if canWrite && !isWriteQueueEmpty c then
    match nextWriteTask c with
    | none => c
    | some writeTask =>
      let c := emit c (Event.write writeTask.data writeTask.size)
      if ret < 0 then c else popWriteTask c
  else c

/-- Lines 80-83: the lazy allocation of the buffer, which also resets `read`. -/
def allocate (t : ReadTask) : ReadTask :=
  match t.buffer with
  | none => { t with read := 0, buffer := some (List.replicate t.size none) }
  | some _ => t

/-- Lines 85-88: `bytesToRead`, for a task whose buffer is allocated. -/
def bytesToRead (t : ReadTask) : Nat :=
  min MAX_RW_SIZE (subSizeT t.size t.read)

/-- The effect of the socket storing `bytes` at `buffer.get() + offset`. -/
def store (buffer : List (Option Byte)) (offset : Nat) (bytes : List Byte) :
    List (Option Byte) :=
  buffer.take offset ++ bytes.map some ++ buffer.drop (offset + bytes.length)

/-- The cells of a task buffer (none for the null pointer). -/
def cells (t : ReadTask) : List (Option Byte) := t.buffer.getD []

/-- Replace the task at the head of the read queue (the worker changes it through a shared
pointer). -/
def setHead (c : IPCConnection) (t : ReadTask) : IPCConnection :=
  { c with readTasks := t :: c.readTasks.tail }

/-- Lines 80-101: the record of the head task once `read += retval` has been executed (the
step has not left the loop). -/
def afterAdd (t : ReadTask) (r : SockRead) : ReadTask :=
  let t := allocate t
  { t with
    buffer := some (store (cells t) t.read (r.bytes.take r.retval.toNat)),
    read := addSizeT t.read r.retval }

/-- Lines 72-109: the read step. `r` is the outcome of `_socket->read` if it is called. The
second component is true when the step leaves the loop by `break`. -/
def serviceRead (c : IPCConnection) (canRead : Bool) (r : SockRead) : IPCConnection × Bool :=
  if canRead && !isReadQueueEmpty c then
    match nextReadTask c with
    | none => (c, false)
    | some readTask =>
      let t := allocate readTask
      let c := emit c (Event.read t.promise t.read (bytesToRead t))
      let t := { t with buffer := some (store (cells t) t.read (r.bytes.take r.retval.toNat)) }
      if r.retval ≤ 0 ∧ r.errno ≠ EAGAIN then
        ({ setHead c t with isGood := false }, true)
      else
        let t := { t with read := addSizeT t.read r.retval }
        if t.read ≥ t.size then
          (emit (popReadTask c) (Event.setValue t.promise (cells t)), false)
        else
          (setHead c t, false)
  else (c, false)

/-- Lines 111-119: the hang-up check. -/
def checkHangUp (c : IPCConnection) (revents : Nat) (canRead : Bool) : IPCConnection × Bool :=
  if revents &&& POLLHUP ≠ 0 then
    let c := { c with isGood := false }
    if isReadQueueEmpty c || !canRead then (c, true) else (c, false)
  else (c, false)

/-- Lines 121-124: the error check. -/
def checkError (c : IPCConnection) (revents : Nat) : IPCConnection × Bool :=
  if revents &&& POLLERR ≠ 0 then (c, true) else (c, false)

/-- Line 59: `canRead`. -/
def canRead (revents : Nat) : Bool := decide (revents &&& POLLIN > 0)

/-- Line 60: `canWrite`. -/
def canWrite (revents : Nat) : Bool := decide (revents &&& POLLOUT > 0)

/-- Line 57: the worker calls `poll` and blocks; the callers make their requests; `poll`
returns. -/
def pollCall (c : IPCConnection) (e : Env) : IPCConnection :=
  applyCalls (emit c (Event.poll (POLLIN ||| POLLOUT) (-1))) e.calls

/-- Lines 57-70: the state of an iteration after its write step. -/
def afterWrite (c : IPCConnection) (e : Env) : IPCConnection :=
  serviceWrite (pollCall c e) (canWrite e.revents) e.writeRet

/-- Lines 57-109: the state of an iteration after its read step, and whether that step left
the loop. -/
def afterRead (c : IPCConnection) (e : Env) : IPCConnection × Bool :=
  serviceRead (afterWrite c e) (canRead e.revents) e.readRes

/-- Lines 57-124: one pass through the body of the main loop. The second component is true
when the body is left by `break`. -/
def loopBody (c : IPCConnection) (e : Env) : IPCConnection × Bool :=
  match afterRead c e with
  | (c, true) => (c, true)
  | (c, false) =>
    match checkHangUp c e.revents (canRead e.revents) with
    | (c, true) => (c, true)
    | (c, false) => checkError c e.revents

/-- Lines 56-125: the main loop, run against the environments of its successive iterations.
The second component tells whether the loop has been left; it is false when the
environments are used up and the worker is about to poll again. -/
def mainLoop : IPCConnection → List Env → IPCConnection × Bool
  | c, [] => (c, c.isWorkerTerminated)
  | c, e :: rest =>
    if c.isWorkerTerminated then (c, true)
    else
      match loopBody c e with
      | (c, true) => (c, true)
      | (c, false) => mainLoop c rest

/-- The environments of the iterations the main loop enters before it is left (or before the
environments are used up). -/
def iterationsRun : IPCConnection → List Env → List Env
  | _, [] => []
  | c, e :: rest =>
    if c.isWorkerTerminated then []
    else
      match loopBody c e with
      | (_, true) => [e]
      | (c, false) => e :: iterationsRun c rest

/-- The caller requests of a sequence of iterations, in order. -/
def callsOf : List Env → List Call
  | [] => []
  | e :: rest => e.calls ++ callsOf rest

/-- The bytes the socket has ready over a sequence of iterations, in order. -/
def delivered : List Env → List Byte
  | [] => []
  | e :: rest => e.readRes.bytes ++ delivered rest

/-- An iteration in which the socket is reported readable, neither hang-up nor error is
reported, no caller requests termination, and `read`, if called, returns all of
`readRes.bytes`: at least one byte and at most `MAX_RW_SIZE`. -/
def Env.delivers (e : Env) : Prop :=
  canRead e.revents = true ∧ e.revents &&& POLLHUP = 0 ∧ e.revents &&& POLLERR = 0 ∧
  Call.requestTermination ∉ e.calls ∧
  e.readRes.retval = (e.readRes.bytes.length : Int) ∧
  0 < e.readRes.bytes.length ∧ e.readRes.bytes.length ≤ MAX_RW_SIZE

instance (e : Env) : Decidable e.delivers := by
  unfold Env.delivers
  infer_instance

/-- A read task that has not been serviced yet, or whose progress counter does not exceed its
size. -/
def ReadTask.inBounds (t : ReadTask) : Prop := t.buffer = none ∨ t.read ≤ t.size

instance (t : ReadTask) : Decidable t.inBounds := by
  unfold ReadTask.inBounds
  infer_instance

/-! ## Teardown -/

/-- Lines 132-134: the loop that empties the write queue. -/
def flushWriteTasks : List WriteTask → List WriteTask
  | [] => []
  | _ :: rest => flushWriteTasks rest

/-- Lines 139-145: the loop that empties the read queue, failing each task. -/
def flushReadTasks : List ReadTask → List Event → List ReadTask × List Event
  | [], trace => ([], trace)
  | readTask :: rest, trace =>
    flushReadTasks rest (trace ++ [Event.setException readTask.promise "connection closed"])

/-- Lines 127-146: what `workerLoop` does once the main loop is left. -/
def teardown (c : IPCConnection) : IPCConnection :=
  let c := { c with isGood := false }
  let c := { c with writeTasks := flushWriteTasks c.writeTasks }
  let flushed := flushReadTasks c.readTasks c.trace
  { c with readTasks := flushed.1, trace := flushed.2 }

/-- The function `IPCConnection::workerLoop`: `none` while the worker has not returned. -/
def workerLoop (c : IPCConnection) (script : List Env) : Option IPCConnection :=
  match mainLoop { c with isGood := true } script with
  | (c, true) => some (teardown c)
  | (_, false) => none

/-! ## Observations on traces -/

/-- How a completion handle was resolved. -/
inductive Resolution
  | value (buffer : List (Option Byte))
  | error (what : String)
deriving DecidableEq, Repr

/-- The resolution an event performs, if any, with the handle it resolves. -/
def Event.resolution : Event → Option (Nat × Resolution)
  | Event.setValue promise buffer => some (promise, Resolution.value buffer)
  | Event.setException promise what => some (promise, Resolution.error what)
  | _ => none

/-- The resolutions in a trace, oldest first. -/
def resolutions (trace : List Event) : List (Nat × Resolution) :=
  trace.filterMap Event.resolution

/-- The handles resolved in a trace, oldest first. -/
def resolvedHandles (trace : List Event) : List Nat :=
  (resolutions trace).map Prod.fst

/-- Is the event a socket call (`poll`, `read` or `write`)? -/
def Event.isSocketCall : Event → Bool
  | Event.poll _ _ => true
  | Event.write _ _ => true
  | Event.read _ _ _ => true
  | _ => false

/-- Is the event a `_socket->write` call? -/
def Event.isWrite : Event → Bool
  | Event.write _ _ => true
  | _ => false

/-- Is the event a `_socket->read` call? -/
def Event.isRead : Event → Bool
  | Event.read _ _ _ => true
  | _ => false

/-- Is the event within the chunk cap: is it anything but a `_socket->read` call for more than
`MAX_RW_SIZE` bytes? -/
def Event.withinCap : Event → Bool
  | Event.read _ _ len => decide (len ≤ MAX_RW_SIZE)
  | _ => true

/-- The `_socket->write` calls in a trace, oldest first. -/
def writeCalls (trace : List Event) : List Event := trace.filter Event.isWrite

/-- The `_socket->write` call that sends a write task. -/
def writeEvent (w : WriteTask) : Event := Event.write w.data w.size

/-- The `_socket->read` call made for a read task at the head of the queue. -/
def readEvent (t : ReadTask) : Event :=
  Event.read t.promise (allocate t).read (bytesToRead (allocate t))

/-- The `_socket->read` calls in a trace, oldest first. -/
def readCalls (trace : List Event) : List Event := trace.filter Event.isRead

/-- The handles of the read tasks of a queue, head first. -/
def handlesOf (q : List ReadTask) : List Nat := q.map ReadTask.promise

/-- Every handle the connection has had so far: those resolved, oldest first, then those
still queued. -/
def handlesSeen (c : IPCConnection) : List Nat :=
  resolvedHandles c.trace ++ handlesOf c.readTasks

/-- A resolution with a buffer, as an entry of `resolutions`. -/
def asValue (v : Nat × List (Option Byte)) : Nat × Resolution := (v.1, Resolution.value v.2)

/-- The resolution by which teardown fails a read task, as an entry of `resolutions`. -/
def asClosed (t : ReadTask) : Nat × Resolution :=
  (t.promise, Resolution.error "connection closed")

/-- The event by which teardown fails a read task. -/
def closedEvent (t : ReadTask) : Event := Event.setException t.promise "connection closed"

/-! ## Sample inputs -/

/-- A read task of 10 bytes, not yet serviced. -/
def sampleRead : ReadTask := ReadTask.mk 10 7 none 0

/-- A write task of 3 bytes. -/
def sampleWrite : WriteTask := WriteTask.mk 3 [1, 2, 3]

/-- A connection with one read task and one write task queued. -/
def sampleConnection : IPCConnection :=
  IPCConnection.mk [sampleWrite] [sampleRead] true false []

/-- An iteration in which the socket is readable only and `read` returns all of `bytes`. -/
def deliver (bytes : List Byte) : Env :=
  Env.mk [] POLLIN 0 (SockRead.mk bytes.length 0 bytes)

/-- An iteration in which the socket is readable only and `read` returns `-1` with `errno`
equal to `EAGAIN`. -/
def wouldBlock : Env := Env.mk [] POLLIN 0 (SockRead.mk (-1) EAGAIN [])

/-- An iteration during whose `poll` a caller requests termination; nothing is ready. -/
def stop : Env := Env.mk [Call.requestTermination] 0 0 (SockRead.mk 0 0 [])

/-- A read task of 20000 bytes, not yet serviced. -/
def largeRead : ReadTask := ReadTask.mk 20000 9 none 0

/-- A connection with only the large read task queued. -/
def largeConnection : IPCConnection := IPCConnection.mk [] [largeRead] true false []

/-- Four bytes arrive, then termination is requested. -/
def fourThenStop : List Env := [deliver [1, 2, 3, 4], stop, stop]

/-- An iteration in which the socket is readable only and `read` returns `-1` with `errno`
equal to 104 (`ECONNRESET`). -/
def readFails : Env := Env.mk [] POLLIN 0 (SockRead.mk (-1) 104 [])

/-- An iteration in which the socket is writable only and `write` returns `ret`. -/
def writable (ret : Int) : Env := Env.mk [] POLLOUT ret (SockRead.mk 0 0 [])

/-- An iteration in which hang-up is reported with the socket readable, and `read` returns all
of `bytes`. -/
def hangUpWith (bytes : List Byte) : Env :=
  Env.mk [] (POLLIN ||| POLLHUP) 0 (SockRead.mk bytes.length 0 bytes)

/-- A write task of 100 bytes. -/
def hundredBytes : WriteTask := WriteTask.mk 100 (List.replicate 100 0)

/-- A connection with only the 100-byte write task queued. -/
def writeConnection : IPCConnection := IPCConnection.mk [hundredBytes] [] true false []

/-- A connection with two read tasks of 5 bytes queued. -/
def twoReads : IPCConnection :=
  IPCConnection.mk [] [ReadTask.mk 5 1 none 0, ReadTask.mk 5 2 none 0] true false []

/-- A connection with only a read task of 0 bytes queued. -/
def emptyRead : IPCConnection := IPCConnection.mk [] [ReadTask.mk 0 3 none 0] true false []

/-- An iteration in which the socket is readable only and `read` returns `0` with `errno`
equal to `EAGAIN`. -/
def zeroAgain : Env := Env.mk [] POLLIN 0 (SockRead.mk 0 EAGAIN [])

/-- An iteration in which the socket is readable only and `read` returns `0` with `errno`
equal to 0. -/
def endOfStream : Env := Env.mk [] POLLIN 0 (SockRead.mk 0 0 [])

/-- An iteration in which only the error bit is reported. -/
def pollError : Env := Env.mk [] POLLERR 0 (SockRead.mk 0 0 [])

/-- Ten bytes arriving as four and then six. -/
def fourThenSix : List Env := [deliver [1, 2, 3, 4], deliver [5, 6, 7, 8, 9, 10]]

/-! ## Teardown -/

theorem flushWriteTasks_eq (q : List WriteTask) : flushWriteTasks q = [] := by
  induction q with
  | nil => rfl
  | cons _ rest ih => simpa [flushWriteTasks] using ih

theorem flushReadTasks_eq (q : List ReadTask) (trace : List Event) :
    flushReadTasks q trace = ([], trace ++ q.map closedEvent) := by
  induction q generalizing trace with
  | nil => simp [flushReadTasks]
  | cons t rest ih => simp [flushReadTasks, ih, closedEvent]

theorem teardown_eq (c : IPCConnection) :
    teardown c =
      { c with isGood := false, writeTasks := [], readTasks := [],
               trace := c.trace ++ c.readTasks.map closedEvent } := by
  simp [teardown, flushWriteTasks_eq, flushReadTasks_eq]

theorem workerLoop_eq_some (c m : IPCConnection) (script : List Env)
    (h : mainLoop { c with isGood := true } script = (m, true)) :
    workerLoop c script = some (teardown m) := by
  simp [workerLoop, h]

theorem workerLoop_some_iff (c c' : IPCConnection) (script : List Env) :
    workerLoop c script = some c' ↔
      ∃ m, mainLoop { c with isGood := true } script = (m, true) ∧ c' = teardown m := by
  unfold workerLoop
  rcases hm : mainLoop { c with isGood := true } script with ⟨m, b⟩
  cases b <;> simp [eq_comm]

theorem countP_isWrite_closed (q : List ReadTask) :
    (q.map closedEvent).countP Event.isWrite = 0 := by
  induction q with
  | nil => rfl
  | cons t rest ih => simp [closedEvent, Event.isWrite, List.countP_cons, ih]

theorem countP_isSocketCall_closed (q : List ReadTask) :
    (q.map closedEvent).countP Event.isSocketCall = 0 := by
  induction q with
  | nil => rfl
  | cons t rest ih => simp [closedEvent, Event.isSocketCall, List.countP_cons, ih]

/-- C1: whenever the main loop is left, in whatever state `m`, `workerLoop` returns, and in the
state it returns both queues are empty, the calls made after the loop are exactly one
`set_exception("connection closed")` per read task still queued in `m`, in queue order, and no
`write` call is among them. -/
theorem C1_teardown_flushes_queues (c m : IPCConnection) (script : List Env)
    (h : mainLoop { c with isGood := true } script = (m, true)) :
    ∃ c', workerLoop c script = some c' ∧
      c'.writeTasks = [] ∧ c'.readTasks = [] ∧
      c'.trace = m.trace ++ m.readTasks.map
        (fun t => Event.setException t.promise "connection closed") ∧
      (∀ t ∈ m.readTasks, Event.setException t.promise "connection closed" ∈ c'.trace) ∧
      c'.trace.countP Event.isWrite = m.trace.countP Event.isWrite := by
  refine ⟨teardown m, workerLoop_eq_some c m script h, ?_, ?_, ?_, ?_, ?_⟩
  · simp [teardown_eq]
  · simp [teardown_eq]
  · simp [teardown_eq, closedEvent]
  · intro t ht
    simp only [teardown_eq, List.mem_append, List.mem_map]
    exact Or.inr ⟨t, ht, rfl⟩
  · simp only [teardown_eq, List.countP_append, countP_isWrite_closed, Nat.add_zero]

/-- C1, witness: the sample connection, four bytes delivered, then termination requested. -/
theorem C1_teardown_flushes_queues_witness :
    mainLoop { sampleConnection with isGood := true } [deliver [1, 2, 3, 4], stop, stop] =
      ((mainLoop { sampleConnection with isGood := true }
        [deliver [1, 2, 3, 4], stop, stop]).1, true) ∧
    ∃ c', workerLoop sampleConnection [deliver [1, 2, 3, 4], stop, stop] = some c' ∧
      c'.writeTasks = [] ∧ c'.readTasks = [] ∧
      c'.trace = (mainLoop { sampleConnection with isGood := true }
        [deliver [1, 2, 3, 4], stop, stop]).1.trace ++ [Event.setException 7 "connection closed"] :=
  ⟨by decide,
   (C1_teardown_flushes_queues sampleConnection _ [deliver [1, 2, 3, 4], stop, stop]
      (by decide)).imp fun _ h => ⟨h.1, h.2.1, h.2.2.1, h.2.2.2.1⟩⟩

/-! ## The caller side -/

theorem applyCalls_cons (c : IPCConnection) (x : Call) (calls : List Call) :
    applyCalls c (x :: calls) = applyCalls (applyCall c x) calls := rfl

theorem applyCalls_readTasks (c : IPCConnection) (calls : List Call) :
    (applyCalls c calls).readTasks = c.readTasks ++ pushedReads calls := by
  induction calls generalizing c with
  | nil => simp [applyCalls, pushedReads]
  | cons x rest ih =>
    rw [applyCalls_cons, ih]
    cases x <;> simp [applyCall, pushedReads]

theorem applyCalls_writeTasks (c : IPCConnection) (calls : List Call) :
    (applyCalls c calls).writeTasks = c.writeTasks ++ pushedWrites calls := by
  induction calls generalizing c with
  | nil => simp [applyCalls, pushedWrites]
  | cons x rest ih =>
    rw [applyCalls_cons, ih]
    cases x <;> simp [applyCall, pushedWrites]

theorem applyCalls_trace (c : IPCConnection) (calls : List Call) :
    (applyCalls c calls).trace = c.trace := by
  induction calls generalizing c with
  | nil => rfl
  | cons x rest ih =>
    rw [applyCalls_cons, ih]
    cases x <;> rfl

theorem applyCalls_isGood (c : IPCConnection) (calls : List Call) :
    (applyCalls c calls).isGood = c.isGood := by
  induction calls generalizing c with
  | nil => rfl
  | cons x rest ih =>
    rw [applyCalls_cons, ih]
    cases x <;> rfl

theorem pushedReads_append (a b : List Call) :
    pushedReads (a ++ b) = pushedReads a ++ pushedReads b := by
  induction a with
  | nil => rfl
  | cons x rest ih => cases x <;> simp [pushedReads, ih]

theorem pushedWrites_append (a b : List Call) :
    pushedWrites (a ++ b) = pushedWrites a ++ pushedWrites b := by
  induction a with
  | nil => rfl
  | cons x rest ih => cases x <;> simp [pushedWrites, ih]

/-! ## The write step -/

theorem serviceWrite_skip (c : IPCConnection) (canWrite : Bool) (ret : Int)
    (h : canWrite = false ∨ c.writeTasks = []) : serviceWrite c canWrite ret = c := by
  rcases h with h | h <;> simp [serviceWrite, isWriteQueueEmpty, h]

theorem serviceWrite_cons (c : IPCConnection) (ret : Int) (w : WriteTask)
    (rest : List WriteTask) (h : c.writeTasks = w :: rest) :
    serviceWrite c true ret =
      { c with trace := c.trace ++ [Event.write w.data w.size],
               writeTasks := if ret < 0 then w :: rest else rest } := by
  by_cases hr : ret < 0 <;>
    simp [serviceWrite, isWriteQueueEmpty, nextWriteTask, popWriteTask, emit, h, hr]

theorem serviceWrite_readTasks (c : IPCConnection) (canWrite : Bool) (ret : Int) :
    (serviceWrite c canWrite ret).readTasks = c.readTasks := by
  cases canWrite
  · rw [serviceWrite_skip c false ret (Or.inl rfl)]
  · cases hq : c.writeTasks with
    | nil => rw [serviceWrite_skip c true ret (Or.inr hq)]
    | cons w rest => rw [serviceWrite_cons c ret w rest hq]

theorem serviceWrite_isGood (c : IPCConnection) (canWrite : Bool) (ret : Int) :
    (serviceWrite c canWrite ret).isGood = c.isGood := by
  cases canWrite
  · rw [serviceWrite_skip c false ret (Or.inl rfl)]
  · cases hq : c.writeTasks with
    | nil => rw [serviceWrite_skip c true ret (Or.inr hq)]
    | cons w rest => rw [serviceWrite_cons c ret w rest hq]

theorem serviceWrite_isWorkerTerminated (c : IPCConnection) (canWrite : Bool) (ret : Int) :
    (serviceWrite c canWrite ret).isWorkerTerminated = c.isWorkerTerminated := by
  cases canWrite
  · rw [serviceWrite_skip c false ret (Or.inl rfl)]
  · cases hq : c.writeTasks with
    | nil => rw [serviceWrite_skip c true ret (Or.inr hq)]
    | cons w rest => rw [serviceWrite_cons c ret w rest hq]

theorem resolutions_append (a b : List Event) :
    resolutions (a ++ b) = resolutions a ++ resolutions b := by
  simp [resolutions]

theorem serviceWrite_resolutions (c : IPCConnection) (canWrite : Bool) (ret : Int) :
    resolutions (serviceWrite c canWrite ret).trace = resolutions c.trace := by
  cases canWrite
  · rw [serviceWrite_skip c false ret (Or.inl rfl)]
  · cases hq : c.writeTasks with
    | nil => rw [serviceWrite_skip c true ret (Or.inr hq)]
    | cons w rest =>
      rw [serviceWrite_cons c ret w rest hq]
      simp [resolutions, Event.resolution]

/-! ## The read step -/

theorem allocate_promise (t : ReadTask) : (allocate t).promise = t.promise := by
  unfold allocate; split <;> rfl

theorem allocate_size (t : ReadTask) : (allocate t).size = t.size := by
  unfold allocate; split <;> rfl

theorem serviceRead_skip (c : IPCConnection) (canRead : Bool) (r : SockRead)
    (h : canRead = false ∨ c.readTasks = []) : serviceRead c canRead r = (c, false) := by
  rcases h with h | h <;> simp [serviceRead, isReadQueueEmpty, h]

/-- The buffer of the head task after the socket has stored what it delivers. -/
theorem serviceRead_cons (c : IPCConnection) (r : SockRead) (t : ReadTask)
    (rest : List ReadTask) (h : c.readTasks = t :: rest) :
    serviceRead c true r =
      if r.retval ≤ 0 ∧ r.errno ≠ EAGAIN then
        ({ c with
            readTasks := { allocate t with
              buffer := some (store (cells (allocate t)) (allocate t).read
                (r.bytes.take r.retval.toNat)) } :: rest,
            isGood := false,
            trace := c.trace ++ [Event.read t.promise (allocate t).read
              (bytesToRead (allocate t))] }, true)
      else if addSizeT (allocate t).read r.retval ≥ t.size then
        ({ c with
            readTasks := rest,
            trace := c.trace ++ [Event.read t.promise (allocate t).read
              (bytesToRead (allocate t)),
              Event.setValue t.promise (store (cells (allocate t)) (allocate t).read
                (r.bytes.take r.retval.toNat))] }, false)
      else
        ({ c with
            readTasks := { allocate t with
              buffer := some (store (cells (allocate t)) (allocate t).read
                (r.bytes.take r.retval.toNat)),
              read := addSizeT (allocate t).read r.retval } :: rest,
            trace := c.trace ++ [Event.read t.promise (allocate t).read
              (bytesToRead (allocate t))] }, false) := by
  by_cases h1 : r.retval ≤ 0 ∧ r.errno ≠ EAGAIN
  · simp [serviceRead, isReadQueueEmpty, nextReadTask, popReadTask, setHead, emit, h, h1,
      allocate_promise, allocate_size, cells]
  · by_cases h2 : addSizeT (allocate t).read r.retval ≥ t.size
    · simp [serviceRead, isReadQueueEmpty, nextReadTask, popReadTask, setHead, emit, h, h1, h2,
        allocate_promise, allocate_size, cells]
    · simp [serviceRead, isReadQueueEmpty, nextReadTask, popReadTask, setHead, emit, h, h1, h2,
        allocate_promise, allocate_size, cells]

/-! ## The loop body -/

theorem checkHangUp_fields (c : IPCConnection) (revents : Nat) (cr : Bool) :
    (checkHangUp c revents cr).1.readTasks = c.readTasks ∧
    (checkHangUp c revents cr).1.writeTasks = c.writeTasks ∧
    (checkHangUp c revents cr).1.trace = c.trace ∧
    (checkHangUp c revents cr).1.isWorkerTerminated = c.isWorkerTerminated := by
  unfold checkHangUp
  dsimp only
  split_ifs <;> simp

theorem checkError_fst (c : IPCConnection) (revents : Nat) :
    (checkError c revents).1 = c := by
  unfold checkError
  split_ifs <;> rfl

theorem loopBody_eq (c : IPCConnection) (e : Env) :
    loopBody c e =
      if (afterRead c e).2 = true then ((afterRead c e).1, true)
      else if (checkHangUp (afterRead c e).1 e.revents (canRead e.revents)).2 = true then
        ((checkHangUp (afterRead c e).1 e.revents (canRead e.revents)).1, true)
      else checkError (checkHangUp (afterRead c e).1 e.revents (canRead e.revents)).1
        e.revents := by
  unfold loopBody
  split
  · next c1 h1 => simp [h1]
  · next c1 h1 =>
    simp only [h1]
    split
    · next c2 h2 => simp [h2]
    · next c2 h2 => simp [h2]

theorem loopBody_fields (c : IPCConnection) (e : Env) :
    (loopBody c e).1.readTasks = (afterRead c e).1.readTasks ∧
    (loopBody c e).1.writeTasks = (afterRead c e).1.writeTasks ∧
    (loopBody c e).1.trace = (afterRead c e).1.trace ∧
    (loopBody c e).1.isWorkerTerminated = (afterRead c e).1.isWorkerTerminated := by
  have h := checkHangUp_fields (afterRead c e).1 e.revents (canRead e.revents)
  rw [loopBody_eq]
  split_ifs
  · simp
  · exact h
  · rw [checkError_fst]; exact h

theorem pollCall_readTasks (c : IPCConnection) (e : Env) :
    (pollCall c e).readTasks = c.readTasks ++ pushedReads e.calls := by
  simp [pollCall, applyCalls_readTasks, emit]

theorem pollCall_writeTasks (c : IPCConnection) (e : Env) :
    (pollCall c e).writeTasks = c.writeTasks ++ pushedWrites e.calls := by
  simp [pollCall, applyCalls_writeTasks, emit]

theorem pollCall_trace (c : IPCConnection) (e : Env) :
    (pollCall c e).trace = c.trace ++ [Event.poll (POLLIN ||| POLLOUT) (-1)] := by
  simp [pollCall, applyCalls_trace, emit]

theorem afterWrite_readTasks (c : IPCConnection) (e : Env) :
    (afterWrite c e).readTasks = c.readTasks ++ pushedReads e.calls := by
  simp [afterWrite, serviceWrite_readTasks, pollCall_readTasks]

theorem afterWrite_resolutions (c : IPCConnection) (e : Env) :
    resolutions (afterWrite c e).trace = resolutions c.trace := by
  unfold afterWrite
  rw [serviceWrite_resolutions, pollCall_trace]
  simp [resolutions, Event.resolution]

/-! ## Handles: what is resolved and what is queued -/

theorem handlesOf_append (a b : List ReadTask) :
    handlesOf (a ++ b) = handlesOf a ++ handlesOf b := by
  simp [handlesOf]

theorem serviceRead_history (c : IPCConnection) (cr : Bool) (r : SockRead) :
    ∃ vals : List (Nat × List (Option Byte)),
      resolutions (serviceRead c cr r).1.trace = resolutions c.trace ++ vals.map asValue ∧
      vals.map Prod.fst ++ handlesOf (serviceRead c cr r).1.readTasks = handlesOf c.readTasks ∧
      vals.length ≤ 1 := by
  cases cr
  · exact ⟨[], by simp [serviceRead_skip c false r (Or.inl rfl)]⟩
  · cases hq : c.readTasks with
    | nil => exact ⟨[], by simp [serviceRead_skip c true r (Or.inr hq), hq]⟩
    | cons t rest =>
      rw [serviceRead_cons c r t rest hq]
      split_ifs
      · exact ⟨[], by simp [resolutions, Event.resolution, handlesOf, allocate_promise]⟩
      · exact ⟨[(t.promise, store (cells (allocate t)) (allocate t).read
            (r.bytes.take r.retval.toNat))],
          by simp [resolutions, Event.resolution, handlesOf, asValue]⟩
      · exact ⟨[], by simp [resolutions, Event.resolution, handlesOf, allocate_promise]⟩

theorem loopBody_history (c : IPCConnection) (e : Env) :
    ∃ vals : List (Nat × List (Option Byte)),
      resolutions (loopBody c e).1.trace = resolutions c.trace ++ vals.map asValue ∧
      vals.map Prod.fst ++ handlesOf (loopBody c e).1.readTasks =
        handlesOf c.readTasks ++ handlesOf (pushedReads e.calls) ∧
      vals.length ≤ 1 := by
  obtain ⟨vals, h1, h2, h3⟩ :=
    serviceRead_history (afterWrite c e) (canRead e.revents) e.readRes
  refine ⟨vals, ?_, ?_, h3⟩
  · rw [(loopBody_fields c e).2.2.1]
    simpa [afterRead, afterWrite_resolutions] using h1
  · rw [(loopBody_fields c e).1]
    simpa [afterRead, afterWrite_readTasks, handlesOf_append] using h2

theorem mainLoop_nil (c : IPCConnection) : mainLoop c [] = (c, c.isWorkerTerminated) := rfl

theorem mainLoop_terminated (c : IPCConnection) (script : List Env)
    (h : c.isWorkerTerminated = true) : mainLoop c script = (c, true) := by
  cases script <;> simp [mainLoop, h]

theorem mainLoop_cons (c : IPCConnection) (e : Env) (rest : List Env)
    (h : c.isWorkerTerminated = false) :
    mainLoop c (e :: rest) =
      if (loopBody c e).2 = true then ((loopBody c e).1, true)
      else mainLoop (loopBody c e).1 rest := by
  rcases hb : loopBody c e with ⟨c1, b⟩
  cases b <;> simp [mainLoop, h, hb]

theorem iterationsRun_terminated (c : IPCConnection) (script : List Env)
    (h : c.isWorkerTerminated = true) : iterationsRun c script = [] := by
  cases script <;> simp [iterationsRun, h]

theorem iterationsRun_cons (c : IPCConnection) (e : Env) (rest : List Env)
    (h : c.isWorkerTerminated = false) :
    iterationsRun c (e :: rest) =
      if (loopBody c e).2 = true then [e]
      else e :: iterationsRun (loopBody c e).1 rest := by
  rcases hb : loopBody c e with ⟨c1, b⟩
  cases b <;> simp [iterationsRun, h, hb]

theorem mainLoop_history (c : IPCConnection) (script : List Env) :
    ∃ vals : List (Nat × List (Option Byte)),
      resolutions (mainLoop c script).1.trace = resolutions c.trace ++ vals.map asValue ∧
      vals.map Prod.fst ++ handlesOf (mainLoop c script).1.readTasks =
        handlesOf c.readTasks ++ handlesOf (pushedReads (callsOf (iterationsRun c script))) := by
  induction script generalizing c with
  | nil => exact ⟨[], by simp [mainLoop_nil, iterationsRun, callsOf, pushedReads, handlesOf]⟩
  | cons e rest ih =>
    cases ht : c.isWorkerTerminated with
    | true =>
      exact ⟨[], by simp [mainLoop_terminated c _ ht, iterationsRun_terminated c _ ht, callsOf,
        pushedReads, handlesOf]⟩
    | false =>
      obtain ⟨v1, h1, h2, -⟩ := loopBody_history c e
      rw [mainLoop_cons c e rest ht, iterationsRun_cons c e rest ht]
      by_cases hb : (loopBody c e).2 = true
      · rw [if_pos hb, if_pos hb]
        refine ⟨v1, h1, ?_⟩
        simpa [callsOf, pushedReads, handlesOf] using h2
      · rw [if_neg hb, if_neg hb]
        obtain ⟨v2, h3, h4⟩ := ih (loopBody c e).1
        refine ⟨v1 ++ v2, ?_, ?_⟩
        · simp only [h3, h1, List.map_append, List.append_assoc]
        · simp only [callsOf, pushedReads_append, handlesOf_append,
            List.map_append, List.append_assoc, h4]
          rw [← List.append_assoc, h2, List.append_assoc]

/-! ## Exactly-once resolution -/

theorem filter_fst_nil {α : Type} (L : List (Nat × α)) (p : Nat)
    (h : p ∉ L.map Prod.fst) : L.filter (fun y => decide (y.1 = p)) = [] := by
  induction L with
  | nil => rfl
  | cons y rest ih =>
    simp only [List.map_cons, List.mem_cons, not_or] at h
    have hy : ¬ y.1 = p := fun hyp => h.1 hyp.symm
    simp [List.filter_cons, hy, ih h.2]

theorem filter_fst_singleton {α : Type} (L : List (Nat × α)) (x : Nat × α) (hx : x ∈ L)
    (hnd : (L.map Prod.fst).Nodup) : L.filter (fun y => decide (y.1 = x.1)) = [x] := by
  induction L with
  | nil => cases hx
  | cons y rest ih =>
    simp only [List.map_cons, List.nodup_cons] at hnd
    rcases List.mem_cons.1 hx with hxy | hxr
    · subst hxy
      simp [List.filter_cons, filter_fst_nil rest x.1 hnd.1]
    · have hne : ¬ y.1 = x.1 := by
        intro hyx
        exact hnd.1 (hyx ▸ List.mem_map_of_mem Prod.fst hxr)
      simp [List.filter_cons, hne, ih hxr hnd.2]

theorem mem_resolutions_value (trace : List Event) (p : Nat) (b : List (Option Byte)) :
    (p, Resolution.value b) ∈ resolutions trace ↔ Event.setValue p b ∈ trace := by
  simp only [resolutions, List.mem_filterMap]
  constructor
  · rintro ⟨ev, hev, hres⟩
    cases ev <;> simp [Event.resolution] at hres
    obtain ⟨rfl, rfl⟩ := hres
    exact hev
  · intro h
    exact ⟨_, h, rfl⟩

theorem teardown_resolutions (m : IPCConnection) :
    resolutions (teardown m).trace = resolutions m.trace ++ m.readTasks.map asClosed := by
  rw [teardown_eq]
  simp only [resolutions_append]
  congr 1
  induction m.readTasks with
  | nil => rfl
  | cons t rest ih =>
    simp only [List.map_cons, resolutions, List.filterMap_cons] at ih ⊢
    simp [closedEvent, Event.resolution, asClosed, ih]

/-- C2: in a run of `workerLoop` that returns, take the read tasks that were queued when it
started or were enqueued while the main loop ran, their handles being distinct and not
resolved before. Each of these handles is resolved by exactly one call in the whole run: either
a `set_value` made inside the main loop, or the `set_exception("connection closed")` of
teardown, for a task still queued when the loop was left. -/
theorem C2_resolved_exactly_once (c c' : IPCConnection) (script : List Env)
    (hrun : workerLoop c script = some c')
    (hdistinct : (handlesOf c.readTasks ++ handlesOf (pushedReads
      (callsOf (iterationsRun { c with isGood := true } script)))).Nodup)
    (hpending : ∀ p ∈ handlesOf c.readTasks ++ handlesOf (pushedReads
      (callsOf (iterationsRun { c with isGood := true } script))),
      p ∉ resolvedHandles c.trace) :
    ∀ p ∈ handlesOf c.readTasks ++ handlesOf (pushedReads
        (callsOf (iterationsRun { c with isGood := true } script))),
      ∃ r, (resolutions c'.trace).filter (fun x => decide (x.1 = p)) = [(p, r)] ∧
        ((∃ b, r = Resolution.value b ∧
            Event.setValue p b ∈ (mainLoop { c with isGood := true } script).1.trace) ∨
         (r = Resolution.error "connection closed" ∧
            p ∈ handlesOf (mainLoop { c with isGood := true } script).1.readTasks)) := by
  obtain ⟨m, hm, rfl⟩ := (workerLoop_some_iff c c' script).1 hrun
  obtain ⟨vals, h1, h2⟩ := mainLoop_history { c with isGood := true } script
  rw [hm] at h1 h2
  simp only at h1 h2
  rw [hm]
  simp only
  rw [← h2] at hdistinct hpending ⊢
  intro p hp
  have hmap : (vals.map asValue ++ m.readTasks.map asClosed).map Prod.fst =
      vals.map Prod.fst ++ handlesOf m.readTasks := by
    simp [handlesOf, asValue, asClosed, Function.comp_def]
  have hp' : p ∈ (vals.map asValue ++ m.readTasks.map asClosed).map Prod.fst := by
    rw [hmap]; exact hp
  obtain ⟨x, hx, rfl⟩ := List.mem_map.1 hp'
  refine ⟨x.2, ?_, ?_⟩
  · rw [teardown_resolutions, h1, List.append_assoc, List.filter_append,
      filter_fst_nil _ x.1 (hpending x.1 hp), List.nil_append]
    exact filter_fst_singleton _ x hx (by rw [hmap]; exact hdistinct)
  · rcases List.mem_append.1 hx with hv | hc
    · left
      obtain ⟨v, hmem, hveq⟩ := List.mem_map.1 hv
      subst hveq
      refine ⟨v.2, rfl, ?_⟩
      rw [← mem_resolutions_value, h1]
      exact List.mem_append_right _ (List.mem_map_of_mem asValue hmem)
    · right
      obtain ⟨t, ht, rfl⟩ := List.mem_map.1 hc
      exact ⟨rfl, List.mem_map_of_mem ReadTask.promise ht⟩

/-- C2, witness: the sample connection, four bytes delivered, then termination requested; the
handle 7 is resolved once, by teardown. -/
theorem C2_resolved_exactly_once_witness :
    ∃ r, (resolutions (teardown (mainLoop { sampleConnection with isGood := true }
        fourThenStop).1).trace).filter (fun x => decide (x.1 = 7)) = [(7, r)] ∧
      ((∃ b, r = Resolution.value b ∧
          Event.setValue 7 b ∈ (mainLoop { sampleConnection with isGood := true }
            fourThenStop).1.trace) ∨
       (r = Resolution.error "connection closed" ∧
          7 ∈ handlesOf (mainLoop { sampleConnection with isGood := true }
            fourThenStop).1.readTasks)) :=
  C2_resolved_exactly_once sampleConnection _ fourThenStop (by decide) (by decide) (by decide)
    7 (by decide)

/-! ## `size_t` arithmetic -/

theorem addSizeT_ofNat (r n : Nat) (h : r + n < SIZE_T_MOD) : addSizeT r (n : Int) = r + n := by
  unfold addSizeT SIZE_T_MOD at *
  omega

theorem subSizeT_of_le (a b : Nat) (h : b ≤ a) (ha : a < SIZE_T_MOD) :
    subSizeT a b = a - b := by
  unfold subSizeT SIZE_T_MOD at *
  omega

/-! ## Stores into the buffer -/

theorem store_length (buf : List (Option Byte)) (off : Nat) (bytes : List Byte)
    (h : off + bytes.length ≤ buf.length) : (store buf off bytes).length = buf.length := by
  simp only [store, List.length_append, List.length_take, List.length_map, List.length_drop]
  omega

theorem store_take (buf : List (Option Byte)) (off : Nat) (bytes : List Byte)
    (h : off ≤ buf.length) :
    (store buf off bytes).take (off + bytes.length) = buf.take off ++ bytes.map some := by
  have hl : (buf.take off ++ bytes.map some).length = off + bytes.length := by
    simp [List.length_take, Nat.min_eq_left h]
  unfold store
  rw [← hl, List.take_left]

theorem store_full (buf : List (Option Byte)) (off : Nat) (bytes : List Byte)
    (h : off + bytes.length = buf.length) :
    store buf off bytes = buf.take off ++ bytes.map some := by
  unfold store
  rw [List.drop_of_length_le (le_of_eq h.symm), List.append_nil]

/-! ## Iterations that do not leave the loop -/

theorem applyCalls_isWorkerTerminated (c : IPCConnection) (calls : List Call)
    (h : Call.requestTermination ∉ calls) :
    (applyCalls c calls).isWorkerTerminated = c.isWorkerTerminated := by
  induction calls generalizing c with
  | nil => rfl
  | cons x rest ih =>
    simp only [List.mem_cons, not_or] at h
    rw [applyCalls_cons, ih _ h.2]
    cases x
    · rfl
    · rfl
    · exact absurd rfl h.1

theorem serviceRead_isWorkerTerminated (c : IPCConnection) (cr : Bool) (r : SockRead) :
    (serviceRead c cr r).1.isWorkerTerminated = c.isWorkerTerminated := by
  cases cr
  · rw [serviceRead_skip c false r (Or.inl rfl)]
  · cases hq : c.readTasks with
    | nil => rw [serviceRead_skip c true r (Or.inr hq)]
    | cons t rest =>
      rw [serviceRead_cons c r t rest hq]
      split_ifs <;> rfl

theorem serviceRead_writeTasks (c : IPCConnection) (cr : Bool) (r : SockRead) :
    (serviceRead c cr r).1.writeTasks = c.writeTasks := by
  cases cr
  · rw [serviceRead_skip c false r (Or.inl rfl)]
  · cases hq : c.readTasks with
    | nil => rw [serviceRead_skip c true r (Or.inr hq)]
    | cons t rest =>
      rw [serviceRead_cons c r t rest hq]
      split_ifs <;> rfl

theorem loopBody_isWorkerTerminated (c : IPCConnection) (e : Env)
    (h : Call.requestTermination ∉ e.calls) :
    (loopBody c e).1.isWorkerTerminated = c.isWorkerTerminated := by
  rw [(loopBody_fields c e).2.2.2, afterRead, serviceRead_isWorkerTerminated, afterWrite,
    serviceWrite_isWorkerTerminated, pollCall, applyCalls_isWorkerTerminated _ _ h]
  rfl

theorem checkHangUp_of_not_hup (c : IPCConnection) (revents : Nat) (cr : Bool)
    (h : revents &&& POLLHUP = 0) : checkHangUp c revents cr = (c, false) := by
  simp [checkHangUp, h]

theorem checkError_of_not_err (c : IPCConnection) (revents : Nat)
    (h : revents &&& POLLERR = 0) : checkError c revents = (c, false) := by
  simp [checkError, h]

theorem loopBody_quiet (c : IPCConnection) (e : Env) (hhup : e.revents &&& POLLHUP = 0)
    (herr : e.revents &&& POLLERR = 0) : loopBody c e = afterRead c e := by
  rw [loopBody_eq, checkHangUp_of_not_hup _ _ _ hhup, checkError_of_not_err _ _ herr]
  rcases afterRead c e with ⟨c1, b⟩
  cases b <;> simp

/-! ## Deliveries to the head read task -/

theorem afterRead_deliver (c : IPCConnection) (e : Env) (t : ReadTask) (rest : List ReadTask)
    (hq : c.readTasks = t :: rest) (hsize : t.size < SIZE_T_MOD) (hd : e.delivers)
    (hfit : (allocate t).read + e.readRes.bytes.length ≤ t.size) :
    afterRead c e =
      if (allocate t).read + e.readRes.bytes.length = t.size then
        ({ afterWrite c e with
            readTasks := rest ++ pushedReads e.calls,
            trace := (afterWrite c e).trace ++ [Event.read t.promise (allocate t).read
              (bytesToRead (allocate t)),
              Event.setValue t.promise (store (cells (allocate t)) (allocate t).read
                e.readRes.bytes)] }, false)
      else
        ({ afterWrite c e with
            readTasks := { allocate t with
              buffer := some (store (cells (allocate t)) (allocate t).read e.readRes.bytes),
              read := (allocate t).read + e.readRes.bytes.length } ::
                (rest ++ pushedReads e.calls),
            trace := (afterWrite c e).trace ++ [Event.read t.promise (allocate t).read
              (bytesToRead (allocate t))] }, false) := by
  obtain ⟨hcr, -, -, -, hret, hpos, -⟩ := hd
  have hq' : (afterWrite c e).readTasks = t :: (rest ++ pushedReads e.calls) := by
    rw [afterWrite_readTasks, hq]; rfl
  have hadd : addSizeT (allocate t).read e.readRes.retval =
      (allocate t).read + e.readRes.bytes.length := by
    rw [hret]
    exact addSizeT_ofNat _ _ (lt_of_le_of_lt hfit hsize)
  have hnot : ¬ (e.readRes.retval ≤ 0 ∧ e.readRes.errno ≠ EAGAIN) := by
    rw [hret]
    intro h
    have := h.1
    omega
  have htake : e.readRes.bytes.take e.readRes.retval.toNat = e.readRes.bytes := by
    rw [hret]; simp
  unfold afterRead
  rw [hcr, serviceRead_cons _ _ t _ hq', if_neg hnot, hadd, htake]
  by_cases hlast : (allocate t).read + e.readRes.bytes.length = t.size
  · rw [if_pos hlast, if_pos (le_of_eq hlast.symm)]
  · rw [if_neg hlast, if_neg (by omega)]

theorem delivered_eq_nil (script : List Env) (hdel : ∀ e ∈ script, e.delivers)
    (h : (delivered script).length = 0) : script = [] := by
  cases script with
  | nil => rfl
  | cons e rest =>
    have hpos := (hdel e (List.mem_cons_self e rest)).2.2.2.2.2.1
    simp only [delivered, List.length_append] at h
    omega

theorem reassemble (script : List Env) :
    ∀ (c : IPCConnection) (t : ReadTask) (rest : List ReadTask) (pre : List (Option Byte)),
      c.isWorkerTerminated = false → c.readTasks = t :: rest → t.size < SIZE_T_MOD →
      (cells (allocate t)).length = t.size → (allocate t).read = pre.length →
      (cells (allocate t)).take pre.length = pre → pre.length < t.size →
      (∀ e ∈ script, e.delivers) → pre.length + (delivered script).length = t.size →
      (mainLoop c script).2 = false ∧
      resolutions (mainLoop c script).1.trace = resolutions c.trace ++
        [(t.promise, Resolution.value (pre ++ (delivered script).map some))] ∧
      (mainLoop c script).1.readTasks = rest ++ pushedReads (callsOf script) ∧
      ∀ n, n < script.length →
        (mainLoop c (script.take n)).2 = false ∧
        resolutions (mainLoop c (script.take n)).1.trace = resolutions c.trace ∧
        (handlesOf (mainLoop c (script.take n)).1.readTasks).head? = some t.promise := by
  induction script with
  | nil =>
    intro c t rest pre _ _ _ _ _ _ hlt _ hsum
    simp only [delivered, List.length_nil] at hsum
    omega
  | cons e es ih =>
    intro c t rest pre hrun hq hsize hlen hread htake hlt hdel hsum
    have hd : e.delivers := hdel e (List.mem_cons_self e es)
    have hdes : ∀ x ∈ es, x.delivers := fun x hx => hdel x (List.mem_cons_of_mem e hx)
    simp only [delivered, List.length_append] at hsum
    have hfit : (allocate t).read + e.readRes.bytes.length ≤ t.size := by omega
    have hbody : loopBody c e = afterRead c e := loopBody_quiet c e hd.2.1 hd.2.2.1
    have hterm : (loopBody c e).1.isWorkerTerminated = false := by
      rw [loopBody_isWorkerTerminated c e hd.2.2.2.1, hrun]
    have hstep := afterRead_deliver c e t rest hq hsize hd hfit
    have hzero : ∀ n, n < (e :: es).length → n = 0 →
        (mainLoop c ((e :: es).take n)).2 = false ∧
        resolutions (mainLoop c ((e :: es).take n)).1.trace = resolutions c.trace ∧
        (handlesOf (mainLoop c ((e :: es).take n)).1.readTasks).head? = some t.promise := by
      intro n _ hn
      subst hn
      simp [mainLoop_nil, hrun, hq, handlesOf]
    have hml : (loopBody c e).2 = false →
        ∀ s, mainLoop c (e :: s) = mainLoop (loopBody c e).1 s := by
      intro hb1 s
      rw [mainLoop_cons c e s hrun, if_neg (by simp [hb1])]
    by_cases hlast : (allocate t).read + e.readRes.bytes.length = t.size
    · -- the delivery that completes the task
      have hes : es = [] := delivered_eq_nil es hdes (by omega)
      subst hes
      rw [if_pos hlast] at hstep
      have hfull := store_full (cells (allocate t)) (allocate t).read e.readRes.bytes
        (by rw [hlen]; exact hlast)
      rw [hread, htake] at hfull
      have hb1 : (loopBody c e).2 = false := by rw [hbody, hstep]
      have hq1 : (loopBody c e).1.readTasks = rest ++ pushedReads e.calls := by
        rw [hbody, hstep]
      have hres1 : resolutions (loopBody c e).1.trace = resolutions c.trace ++
          [(t.promise, Resolution.value (pre ++ e.readRes.bytes.map some))] := by
        rw [hbody, hstep]
        simp only [resolutions_append, afterWrite_resolutions]
        rw [hread, hfull]
        simp [resolutions, Event.resolution]
      rw [hml hb1, mainLoop_nil]
      refine ⟨hterm, ?_, ?_, ?_⟩
      · rw [hres1]; simp [delivered]
      · rw [hq1]; simp [callsOf]
      · intro n hn
        exact hzero n hn (by simpa using hn)
    · -- a delivery that leaves the task at the head
      rw [if_neg hlast] at hstep
      have hlt' : (pre ++ e.readRes.bytes.map some).length < t.size := by
        simp only [List.length_append, List.length_map]
        omega
      have hb1 : (loopBody c e).2 = false := by rw [hbody, hstep]
      have hq1 : (loopBody c e).1.readTasks =
          { allocate t with
              buffer := some (store (cells (allocate t)) (allocate t).read e.readRes.bytes),
              read := (allocate t).read + e.readRes.bytes.length } ::
            (rest ++ pushedReads e.calls) := by rw [hbody, hstep]
      have hres1 : resolutions (loopBody c e).1.trace = resolutions c.trace := by
        rw [hbody, hstep]
        simp only [resolutions_append, afterWrite_resolutions]
        simp [resolutions, Event.resolution]
      have hIH := ih (loopBody c e).1 _ _ (pre ++ e.readRes.bytes.map some) hterm hq1
        (show (allocate t).size < SIZE_T_MOD by rw [allocate_size]; exact hsize)
        (show (store (cells (allocate t)) (allocate t).read e.readRes.bytes).length =
            (allocate t).size by
          rw [store_length _ _ _ (by rw [hlen]; exact hfit), hlen, allocate_size])
        (show (allocate t).read + e.readRes.bytes.length =
            (pre ++ e.readRes.bytes.map some).length by simp [hread])
        (show (store (cells (allocate t)) (allocate t).read e.readRes.bytes).take
            (pre ++ e.readRes.bytes.map some).length = pre ++ e.readRes.bytes.map some by
          rw [List.length_append, List.length_map, ← hread,
            store_take _ _ _ (by rw [hlen]; omega), hread, htake])
        (show (pre ++ e.readRes.bytes.map some).length < (allocate t).size by
          rw [allocate_size]; exact hlt')
        hdes
        (show (pre ++ e.readRes.bytes.map some).length + (delivered es).length =
            (allocate t).size by
          rw [allocate_size, List.length_append, List.length_map]; omega)
      obtain ⟨i1, i2, i3, i4⟩ := hIH
      refine ⟨?_, ?_, ?_, ?_⟩
      · rw [hml hb1]; exact i1
      · rw [hml hb1, i2, hres1]
        simp [delivered, allocate_promise]
      · rw [hml hb1, i3]
        simp [callsOf, pushedReads_append]
      · intro n hn
        cases n with
        | zero => exact hzero 0 hn rfl
        | succ k =>
          have hk : k < es.length := by simpa using hn
          obtain ⟨j1, j2, j3⟩ := i4 k hk
          simp only [List.take_succ_cons]
          rw [hml hb1]
          refine ⟨j1, by rw [j2, hres1], ?_⟩
          rw [j3]
          simp [allocate_promise]

theorem allocate_of_none (t : ReadTask) (h : t.buffer = none) :
    allocate t = { t with read := 0, buffer := some (List.replicate t.size none) } := by
  unfold allocate; rw [h]

/-- C3: let the head read task have size `S` with `0 < S < 2 ^ 64` and no buffer yet, and let
the main loop run `k` iterations in each of which the socket is readable (no hang-up, no error,
no termination request) and `read` delivers between 1 and 8192 bytes, `S` bytes in total. Then
the loop is still running after the `k` iterations, the only resolution made is `set_value` on
the handle of that task with the `S` delivered bytes in order, the task has left the queue, and
after any smaller number of these iterations nothing is resolved and the task is still at the
head. -/
theorem C3_partial_read_reassembly (c : IPCConnection) (t : ReadTask) (rest : List ReadTask)
    (script : List Env) (hrun : c.isWorkerTerminated = false) (hq : c.readTasks = t :: rest)
    (hbuf : t.buffer = none) (hpos : 0 < t.size) (hsize : t.size < SIZE_T_MOD)
    (hdel : ∀ e ∈ script, e.delivers) (hsum : (delivered script).length = t.size) :
    (mainLoop c script).2 = false ∧
    resolutions (mainLoop c script).1.trace = resolutions c.trace ++
      [(t.promise, Resolution.value ((delivered script).map some))] ∧
    ((delivered script).map some).length = t.size ∧
    (mainLoop c script).1.readTasks = rest ++ pushedReads (callsOf script) ∧
    ∀ n, n < script.length →
      (mainLoop c (script.take n)).2 = false ∧
      resolutions (mainLoop c (script.take n)).1.trace = resolutions c.trace ∧
      (handlesOf (mainLoop c (script.take n)).1.readTasks).head? = some t.promise := by
  have h := reassemble script c t rest [] hrun hq hsize
    (by rw [allocate_of_none t hbuf]; simp [cells])
    (by rw [allocate_of_none t hbuf]; rfl)
    (by simp) (by simpa using hpos) hdel (by simpa using hsum)
  obtain ⟨h1, h2, h3, h4⟩ := h
  exact ⟨h1, by simpa using h2, by simpa using hsum, h3, h4⟩

/-- C3, witness: a read of size 10 served by a delivery of 4 bytes and one of 6 bytes. -/
theorem C3_partial_read_reassembly_witness :
    resolutions (mainLoop sampleConnection fourThenSix).1.trace =
      [(7, Resolution.value [some 1, some 2, some 3, some 4, some 5, some 6, some 7, some 8,
        some 9, some 10])] ∧
    resolutions (mainLoop sampleConnection (fourThenSix.take 1)).1.trace = [] :=
  have h := C3_partial_read_reassembly sampleConnection sampleRead [] fourThenSix rfl rfl rfl
    (by decide) (by decide) (by decide) (by decide)
  ⟨h.2.1, (h.2.2.2.2 1 (by decide)).2.1⟩

/-- C4, at the failing input: a read of size 10 has received 4 bytes; `read` then returns `-1`
with `errno` equal to `EAGAIN`. The loop is not left and nothing is resolved, but the progress
counter of the task drops from 4 to 3. When the same result comes before any byte was
received, the counter wraps to `2 ^ 64 - 1` and the handle is resolved with the unwritten
buffer. -/
theorem C4_would_block_changes_progress :
    (mainLoop sampleConnection [deliver [1, 2, 3, 4]]).1.readTasks.map ReadTask.read = [4] ∧
    (mainLoop sampleConnection [deliver [1, 2, 3, 4], wouldBlock]).2 = false ∧
    (mainLoop sampleConnection [deliver [1, 2, 3, 4], wouldBlock]).1.readTasks.map
      ReadTask.read = [3] ∧
    resolutions (mainLoop sampleConnection [deliver [1, 2, 3, 4], wouldBlock]).1.trace = [] ∧
    addSizeT 0 (-1) = 18446744073709551615 ∧
    (mainLoop sampleConnection [wouldBlock]).1.readTasks = [] ∧
    resolutions (mainLoop sampleConnection [wouldBlock]).1.trace =
      [(7, Resolution.value (List.replicate 10 none))] := by
  decide

/-! ## The chunk cap -/

theorem bytesToRead_le (t : ReadTask) : bytesToRead t ≤ MAX_RW_SIZE :=
  Nat.min_le_left _ _

theorem serviceWrite_trace (c : IPCConnection) (cw : Bool) (ret : Int) :
    (serviceWrite c cw ret).trace =
      c.trace ++ (if cw = true then (c.writeTasks.head?.toList.map writeEvent) else []) := by
  cases cw
  · rw [serviceWrite_skip c false ret (Or.inl rfl)]; simp
  · cases hq : c.writeTasks with
    | nil => rw [serviceWrite_skip c true ret (Or.inr hq)]; simp
    | cons w rest => rw [serviceWrite_cons c ret w rest hq]; simp [writeEvent]

theorem serviceRead_trace (c : IPCConnection) (cr : Bool) (r : SockRead) :
    ∃ new, (serviceRead c cr r).1.trace = c.trace ++ new ∧
      (∀ ev ∈ new, ev.withinCap = true) ∧ writeCalls new = [] := by
  cases cr
  · exact ⟨[], by simp [serviceRead_skip c false r (Or.inl rfl), writeCalls]⟩
  · cases hq : c.readTasks with
    | nil => exact ⟨[], by simp [serviceRead_skip c true r (Or.inr hq), writeCalls]⟩
    | cons t rest =>
      rw [serviceRead_cons c r t rest hq]
      have hle := bytesToRead_le (allocate t)
      split_ifs
      · exact ⟨_, rfl, by simp [Event.withinCap, hle], by simp [writeCalls, Event.isWrite]⟩
      · exact ⟨_, rfl, by simp [Event.withinCap, hle], by simp [writeCalls, Event.isWrite]⟩
      · exact ⟨_, rfl, by simp [Event.withinCap, hle], by simp [writeCalls, Event.isWrite]⟩

theorem loopBody_trace (c : IPCConnection) (e : Env) :
    ∃ new, (loopBody c e).1.trace = c.trace ++ new ∧
      (∀ ev ∈ new, ev.withinCap = true) ∧
      writeCalls new = if canWrite e.revents = true then
        ((c.writeTasks ++ pushedWrites e.calls).head?.toList.map writeEvent) else [] := by
  obtain ⟨new, h1, h2, h3⟩ := serviceRead_trace (afterWrite c e) (canRead e.revents) e.readRes
  refine ⟨Event.poll (POLLIN ||| POLLOUT) (-1) ::
    (if canWrite e.revents = true then
      ((c.writeTasks ++ pushedWrites e.calls).head?.toList.map writeEvent) else []) ++ new,
    ?_, ?_, ?_⟩
  · rw [(loopBody_fields c e).2.2.1, afterRead, h1, afterWrite, serviceWrite_trace,
      pollCall_trace, pollCall_writeTasks]
    simp
  · intro ev hev
    simp only [List.cons_append, List.mem_cons, List.mem_append] at hev
    rcases hev with rfl | hev | hev
    · rfl
    · split_ifs at hev
      · obtain ⟨w, -, rfl⟩ := List.mem_map.1 hev
        rfl
      · cases hev
    · exact h2 ev hev
  · have hw : ∀ l : List WriteTask, writeCalls (l.map writeEvent) = l.map writeEvent := by
      intro l
      induction l with
      | nil => rfl
      | cons w rest ih =>
        simp only [writeCalls, List.map_cons] at ih ⊢
        rw [List.filter_cons_of_pos (by rfl), ih]
    simp only [writeCalls] at h3 hw ⊢
    rw [List.cons_append, List.filter_cons_of_neg (by simp [Event.isWrite]), List.filter_append,
      h3, List.append_nil]
    split_ifs
    · exact hw _
    · rfl

theorem mainLoop_trace (c : IPCConnection) (script : List Env) :
    ∃ new, (mainLoop c script).1.trace = c.trace ++ new ∧ ∀ ev ∈ new, ev.withinCap = true := by
  induction script generalizing c with
  | nil => exact ⟨[], by simp [mainLoop_nil]⟩
  | cons e rest ih =>
    cases ht : c.isWorkerTerminated with
    | true => exact ⟨[], by simp [mainLoop_terminated c _ ht]⟩
    | false =>
      obtain ⟨n1, h1, h2, -⟩ := loopBody_trace c e
      rw [mainLoop_cons c e rest ht]
      by_cases hb : (loopBody c e).2 = true
      · rw [if_pos hb]
        exact ⟨n1, h1, h2⟩
      · rw [if_neg hb]
        obtain ⟨n2, h3, h4⟩ := ih (loopBody c e).1
        refine ⟨n1 ++ n2, by rw [h3, h1, List.append_assoc], ?_⟩
        intro ev hev
        rcases List.mem_append.1 hev with h | h
        · exact h2 ev h
        · exact h4 ev h

/-- C5: in a read step that finds the task `t` at the head of the read queue, the one
`_socket->read` call made asks for `min(8192, size - read)` bytes, the subtraction being that of
`size_t` and `read` the counter after the lazy allocation; this is at most 8192, and it is
`min(8192, size - read)` in the natural numbers whenever `read ≤ size < 2 ^ 64`. Moreover no
`_socket->read` call made during any run of the main loop asks for more than 8192 bytes. -/
theorem C5_chunk_cap (c : IPCConnection) (r : SockRead) (script : List Env) :
    (∀ t rest, c.readTasks = t :: rest →
      ∃ after, (serviceRead c true r).1.trace =
          c.trace ++ Event.read t.promise (allocate t).read
            (min MAX_RW_SIZE (subSizeT t.size (allocate t).read)) :: after ∧
        after.countP Event.isRead = 0 ∧
        min MAX_RW_SIZE (subSizeT t.size (allocate t).read) ≤ 8192 ∧
        (t.size < SIZE_T_MOD → (allocate t).read ≤ t.size →
          min MAX_RW_SIZE (subSizeT t.size (allocate t).read) =
            min 8192 (t.size - (allocate t).read))) ∧
    (∀ p off len, Event.read p off len ∈ (mainLoop c script).1.trace →
      Event.read p off len ∈ c.trace ∨ len ≤ 8192) := by
  constructor
  · intro t rest hq
    have hb : bytesToRead (allocate t) = min MAX_RW_SIZE (subSizeT t.size (allocate t).read) := by
      simp [bytesToRead, allocate_size]
    have hrest : min MAX_RW_SIZE (subSizeT t.size (allocate t).read) ≤ 8192 ∧
        (t.size < SIZE_T_MOD → (allocate t).read ≤ t.size →
          min MAX_RW_SIZE (subSizeT t.size (allocate t).read) =
            min 8192 (t.size - (allocate t).read)) := by
      refine ⟨Nat.min_le_left _ _, ?_⟩
      intro h1 h2
      rw [subSizeT_of_le _ _ h2 h1]
      rfl
    rw [serviceRead_cons c r t rest hq, hb]
    split_ifs
    · exact ⟨[], by simp, by simp, hrest⟩
    · exact ⟨_, by simp; rfl, by simp [Event.isRead], hrest⟩
    · exact ⟨[], by simp, by simp, hrest⟩
  · intro p off len hmem
    obtain ⟨new, h1, h2⟩ := mainLoop_trace c script
    rw [h1] at hmem
    rcases List.mem_append.1 hmem with h | h
    · exact Or.inl h
    · right
      have := h2 _ h
      simpa [Event.withinCap, MAX_RW_SIZE] using this

/-- C5, witness: a read task of 20000 bytes; the first `read` call asks for 8192 bytes. -/
theorem C5_chunk_cap_witness :
    ∃ after, (serviceRead largeConnection true (SockRead.mk 5 0 [1, 2, 3, 4, 5])).1.trace =
      [] ++ Event.read 9 0 8192 :: after :=
  ((C5_chunk_cap largeConnection (SockRead.mk 5 0 [1, 2, 3, 4, 5]) []).1 largeRead [] rfl).imp
    fun _ h => h.1

/-! ## FIFO order -/

theorem serviceWrite_queue (c : IPCConnection) (cw : Bool) (ret : Int) :
    ∃ popped : List WriteTask, popped.length ≤ 1 ∧
      popped ++ (serviceWrite c cw ret).writeTasks = c.writeTasks := by
  cases cw
  · exact ⟨[], by simp [serviceWrite_skip c false ret (Or.inl rfl)]⟩
  · cases hq : c.writeTasks with
    | nil => exact ⟨[], by simp [serviceWrite_skip c true ret (Or.inr hq), hq]⟩
    | cons w rest =>
      rw [serviceWrite_cons c ret w rest hq]
      by_cases hr : ret < 0
      · exact ⟨[], by simp [hr]⟩
      · exact ⟨[w], by simp [hr]⟩

theorem loopBody_queue (c : IPCConnection) (e : Env) :
    ∃ popped : List WriteTask, popped.length ≤ 1 ∧
      popped ++ (loopBody c e).1.writeTasks = c.writeTasks ++ pushedWrites e.calls := by
  obtain ⟨popped, h1, h2⟩ := serviceWrite_queue (pollCall c e) (canWrite e.revents) e.writeRet
  refine ⟨popped, h1, ?_⟩
  rw [(loopBody_fields c e).2.1, afterRead, serviceRead_writeTasks, afterWrite, h2,
    pollCall_writeTasks]

theorem mainLoop_queue (c : IPCConnection) (script : List Env) :
    ∃ retired : List WriteTask,
      retired ++ (mainLoop c script).1.writeTasks =
        c.writeTasks ++ pushedWrites (callsOf (iterationsRun c script)) := by
  induction script generalizing c with
  | nil => exact ⟨[], by simp [mainLoop_nil, iterationsRun, callsOf, pushedWrites]⟩
  | cons e rest ih =>
    cases ht : c.isWorkerTerminated with
    | true =>
      exact ⟨[], by simp [mainLoop_terminated c _ ht, iterationsRun_terminated c _ ht, callsOf,
        pushedWrites]⟩
    | false =>
      obtain ⟨p1, -, h1⟩ := loopBody_queue c e
      rw [mainLoop_cons c e rest ht, iterationsRun_cons c e rest ht]
      by_cases hb : (loopBody c e).2 = true
      · rw [if_pos hb, if_pos hb]
        exact ⟨p1, by simpa [callsOf, pushedWrites] using h1⟩
      · rw [if_neg hb, if_neg hb]
        obtain ⟨p2, h2⟩ := ih (loopBody c e).1
        refine ⟨p1 ++ p2, ?_⟩
        simp only [callsOf, pushedWrites_append, List.append_assoc, h2]
        rw [← List.append_assoc, h1, List.append_assoc]

theorem resolvedHandles_eq (trace : List Event) (base : List Event)
    (vals : List (Nat × List (Option Byte)))
    (h : resolutions trace = resolutions base ++ vals.map asValue) :
    resolvedHandles trace = resolvedHandles base ++ vals.map Prod.fst := by
  simp [resolvedHandles, h, asValue, Function.comp_def]

/-- C6: one pass through the loop body takes at most one task from each queue, and only from
its head: the write queue after the pass, with at most one task put back in front, is the
queue before the pass followed by the tasks the callers pushed, and likewise for the read
queue, where a task taken is the one whose handle the pass resolves. Hence over any run of the
main loop the write tasks retired are an initial segment of the write tasks in enqueue order,
the handles resolved so far followed by the handles still queued are the handles in enqueue
order, and once teardown is done the handles have been resolved in exactly the order their
tasks were enqueued. -/
theorem C6_fifo_service_order (c : IPCConnection) (script : List Env) :
    (∀ e : Env,
      (∃ popped : List WriteTask, popped.length ≤ 1 ∧
        popped ++ (loopBody c e).1.writeTasks = c.writeTasks ++ pushedWrites e.calls) ∧
      (∃ vals : List (Nat × List (Option Byte)), vals.length ≤ 1 ∧
        resolutions (loopBody c e).1.trace = resolutions c.trace ++ vals.map asValue ∧
        vals.map Prod.fst ++ handlesOf (loopBody c e).1.readTasks =
          handlesOf c.readTasks ++ handlesOf (pushedReads e.calls))) ∧
    (∃ retired : List WriteTask,
      retired ++ (mainLoop c script).1.writeTasks =
        c.writeTasks ++ pushedWrites (callsOf (iterationsRun c script))) ∧
    resolvedHandles (mainLoop c script).1.trace ++ handlesOf (mainLoop c script).1.readTasks =
      resolvedHandles c.trace ++
        (handlesOf c.readTasks ++ handlesOf (pushedReads (callsOf (iterationsRun c script)))) ∧
    resolvedHandles (teardown (mainLoop c script).1).trace =
      resolvedHandles c.trace ++
        (handlesOf c.readTasks ++ handlesOf (pushedReads (callsOf (iterationsRun c script)))) := by
  obtain ⟨vals, h1, h2⟩ := mainLoop_history c script
  have h3 := resolvedHandles_eq _ _ _ h1
  refine ⟨?_, mainLoop_queue c script, ?_, ?_⟩
  · intro e
    obtain ⟨v, hv1, hv2, hv3⟩ := loopBody_history c e
    exact ⟨loopBody_queue c e, v, hv3, hv1, hv2⟩
  · rw [h3, List.append_assoc, h2]
  · have ht : resolvedHandles (teardown (mainLoop c script).1).trace =
        resolvedHandles (mainLoop c script).1.trace ++
          handlesOf (mainLoop c script).1.readTasks := by
      simp [resolvedHandles, teardown_resolutions, handlesOf, asClosed, Function.comp_def]
    rw [ht, h3, List.append_assoc, h2]

/-! ## When the loop body leaves the loop -/

theorem checkHangUp_of_hup (c : IPCConnection) (revents : Nat) (cr : Bool)
    (h : revents &&& POLLHUP ≠ 0) :
    checkHangUp c revents cr =
      ({ c with isGood := false }, c.readTasks.isEmpty || !cr) := by
  unfold checkHangUp isReadQueueEmpty
  rw [if_pos h]
  dsimp only
  cases hb : (c.readTasks.isEmpty || !cr) <;> simp

theorem checkError_snd (c : IPCConnection) (revents : Nat) :
    (checkError c revents).2 = decide (revents &&& POLLERR ≠ 0) := by
  unfold checkError
  split_ifs with h <;> simp [h]

theorem loopBody_snd (c : IPCConnection) (e : Env) :
    (loopBody c e).2 =
      ((afterRead c e).2 ||
        (decide (e.revents &&& POLLHUP ≠ 0) &&
          ((afterRead c e).1.readTasks.isEmpty || !canRead e.revents)) ||
        decide (e.revents &&& POLLERR ≠ 0)) := by
  rw [loopBody_eq]
  by_cases hhup : e.revents &&& POLLHUP = 0
  · rw [checkHangUp_of_not_hup _ _ _ hhup]
    cases hb : (afterRead c e).2 <;> simp [hhup, checkError_snd]
  · rw [checkHangUp_of_hup _ _ _ hhup]
    cases hb : (afterRead c e).2
    · generalize ((afterRead c e).1.readTasks.isEmpty || !canRead e.revents) = q
      cases q <;> simp [hhup, checkError_snd]
    · simp

theorem loopBody_isGood (c : IPCConnection) (e : Env) :
    (loopBody c e).1.isGood =
      if (afterRead c e).2 = true then (afterRead c e).1.isGood
      else if e.revents &&& POLLHUP ≠ 0 then false
      else (afterRead c e).1.isGood := by
  rw [loopBody_eq]
  by_cases hhup : e.revents &&& POLLHUP = 0
  · rw [checkHangUp_of_not_hup _ _ _ hhup]
    split_ifs <;> simp_all [checkError_fst]
  · rw [checkHangUp_of_hup _ _ _ hhup]
    split_ifs <;> simp_all [checkError_fst]

theorem mainLoop_break (c : IPCConnection) (e : Env) (rest : List Env)
    (hrun : c.isWorkerTerminated = false) (hb : (loopBody c e).2 = true) :
    mainLoop c (e :: rest) = ((loopBody c e).1, true) := by
  rw [mainLoop_cons c e rest hrun, if_pos hb]

theorem mainLoop_continue (c : IPCConnection) (e : Env) (rest : List Env)
    (hrun : c.isWorkerTerminated = false) (hb : (loopBody c e).2 = false) :
    mainLoop c (e :: rest) = mainLoop (loopBody c e).1 rest := by
  rw [mainLoop_cons c e rest hrun, if_neg (by simp [hb])]

/-! ## A fatal read -/

theorem afterRead_fatal (c : IPCConnection) (e : Env) (t : ReadTask) (rest : List ReadTask)
    (hcr : canRead e.revents = true) (hq : c.readTasks ++ pushedReads e.calls = t :: rest)
    (hret : e.readRes.retval ≤ 0) (herrno : e.readRes.errno ≠ EAGAIN) :
    afterRead c e =
      ({ afterWrite c e with
          readTasks := { allocate t with
            buffer := some (store (cells (allocate t)) (allocate t).read
              (e.readRes.bytes.take e.readRes.retval.toNat)) } :: rest,
          isGood := false,
          trace := (afterWrite c e).trace ++ [Event.read t.promise (allocate t).read
            (bytesToRead (allocate t))] }, true) := by
  have hq' : (afterWrite c e).readTasks = t :: rest := by rw [afterWrite_readTasks, hq]
  unfold afterRead
  rw [hcr, serviceRead_cons _ _ t rest hq', if_pos ⟨hret, herrno⟩]

theorem fatal_read_leaves_loop (c : IPCConnection) (e : Env) (more : List Env) (t : ReadTask)
    (rest : List ReadTask) (hrun : c.isWorkerTerminated = false)
    (hcr : canRead e.revents = true) (hq : c.readTasks ++ pushedReads e.calls = t :: rest)
    (hret : e.readRes.retval ≤ 0) (herrno : e.readRes.errno ≠ EAGAIN) :
    mainLoop c (e :: more) = ((afterRead c e).1, true) ∧
    (afterRead c e).1.isGood = false ∧
    (afterRead c e).1.trace = (afterWrite c e).trace ++
      [Event.read t.promise (allocate t).read (bytesToRead (allocate t))] ∧
    (afterRead c e).1.readTasks = { allocate t with
      buffer := some (store (cells (allocate t)) (allocate t).read
        (e.readRes.bytes.take e.readRes.retval.toNat)) } :: rest := by
  have hstep := afterRead_fatal c e t rest hcr hq hret herrno
  have hb : (loopBody c e).2 = true := by rw [loopBody_snd, hstep]; rfl
  have h1 : (loopBody c e).1 = (afterRead c e).1 := by
    rw [loopBody_eq, if_pos (by rw [hstep])]
  refine ⟨?_, ?_, ?_, ?_⟩
  · rw [mainLoop_break c e more hrun hb, h1]
  · rw [hstep]
  · rw [hstep]
  · rw [hstep]

/-- C7: take an iteration that the loop enters, in which the socket is readable, the read queue
(with what the callers pushed during `poll`) has the task `t` at its head, and `read` returns a
result `≤ 0` with `errno` different from `EAGAIN`. Whatever environments follow, the main loop
is left in this iteration and no later iteration is entered; the connection is not good; the
`read` call is the last call made in the loop, so nothing is resolved there; the read queue
still holds `t` (with its buffer allocated) at its head, followed by the same tasks; and
`workerLoop` returns after making only `set_exception("connection closed")` calls, the first of
them on the handle of `t`. -/
theorem C7_fatal_read_failure (c : IPCConnection) (e : Env) (more : List Env) (t : ReadTask)
    (rest : List ReadTask) (hrun : c.isWorkerTerminated = false)
    (hcr : canRead e.revents = true) (hq : c.readTasks ++ pushedReads e.calls = t :: rest)
    (hret : e.readRes.retval ≤ 0) (herrno : e.readRes.errno ≠ EAGAIN) :
    (mainLoop c (e :: more)).2 = true ∧
    iterationsRun c (e :: more) = [e] ∧
    (mainLoop c (e :: more)).1.isGood = false ∧
    (mainLoop c (e :: more)).1.trace = (afterWrite c e).trace ++
      [Event.read t.promise (allocate t).read (bytesToRead (allocate t))] ∧
    resolutions (mainLoop c (e :: more)).1.trace = resolutions c.trace ∧
    handlesOf (mainLoop c (e :: more)).1.readTasks = t.promise :: handlesOf rest ∧
    (mainLoop c (e :: more)).1.readTasks.tail = rest ∧
    ∃ c', workerLoop c (e :: more) = some c' ∧ c'.isGood = false ∧ c'.readTasks = [] ∧
      c'.trace = (afterWrite { c with isGood := true } e).trace ++
        Event.read t.promise (allocate t).read (bytesToRead (allocate t)) ::
        Event.setException t.promise "connection closed" ::
        rest.map (fun x => Event.setException x.promise "connection closed") := by
  obtain ⟨h1, h2, h3, h4⟩ := fatal_read_leaves_loop c e more t rest hrun hcr hq hret herrno
  obtain ⟨g1, -, g3, g4⟩ := fatal_read_leaves_loop { c with isGood := true } e more t rest
    hrun hcr hq hret herrno
  have hb : (loopBody c e).2 = true := by
    rw [loopBody_snd, afterRead_fatal c e t rest hcr hq hret herrno]
    rfl
  refine ⟨by rw [h1], ?_, by rw [h1]; exact h2, by rw [h1]; exact h3, ?_, ?_, ?_, ?_⟩
  · rw [iterationsRun_cons c e more hrun, if_pos hb]
  · rw [h1]
    simp only [h3, resolutions_append, afterWrite_resolutions]
    simp [resolutions, Event.resolution]
  · rw [h1]
    simp only [h4, handlesOf, List.map_cons, allocate_promise]
  · rw [h1]
    simp only [h4, List.tail_cons]
  · refine ⟨teardown (afterRead { c with isGood := true } e).1,
      workerLoop_eq_some c _ _ g1, by simp [teardown_eq], by simp [teardown_eq], ?_⟩
    rw [teardown_eq]
    simp only [g3, g4, List.map_cons, closedEvent, allocate_promise, List.append_assoc,
      List.singleton_append]
    rfl

/-- C7, witness: the sample connection with four bytes received; `read` then fails with
`errno` 104. -/
theorem C7_fatal_read_failure_witness :
    (mainLoop (mainLoop sampleConnection [deliver [1, 2, 3, 4]]).1 [readFails, stop]).2 = true ∧
    (mainLoop (mainLoop sampleConnection [deliver [1, 2, 3, 4]]).1
      [readFails, stop]).1.isGood = false ∧
    handlesOf (mainLoop (mainLoop sampleConnection [deliver [1, 2, 3, 4]]).1
      [readFails, stop]).1.readTasks = [7] :=
  have h := C7_fatal_read_failure (mainLoop sampleConnection [deliver [1, 2, 3, 4]]).1 readFails
    [stop] (ReadTask.mk 10 7 (some [some 1, some 2, some 3, some 4, none, none, none, none,
      none, none]) 4) [] (by decide) (by decide) (by decide) (by decide) (by decide)
  ⟨h.1, h.2.2.1, h.2.2.2.2.2.1⟩

/-! ## The write step inside an iteration -/

theorem serviceRead_congr (c1 c2 : IPCConnection) (cr : Bool) (r : SockRead)
    (h : c1.readTasks = c2.readTasks) :
    (serviceRead c1 cr r).2 = (serviceRead c2 cr r).2 ∧
    (serviceRead c1 cr r).1.readTasks = (serviceRead c2 cr r).1.readTasks := by
  cases cr
  · rw [serviceRead_skip c1 false r (Or.inl rfl), serviceRead_skip c2 false r (Or.inl rfl)]
    exact ⟨rfl, h⟩
  · cases hq : c2.readTasks with
    | nil =>
      rw [serviceRead_skip c1 true r (Or.inr (h.trans hq)),
        serviceRead_skip c2 true r (Or.inr hq)]
      exact ⟨rfl, h⟩
    | cons t rest =>
      rw [serviceRead_cons c1 r t rest (h.trans hq), serviceRead_cons c2 r t rest hq]
      split_ifs <;> exact ⟨rfl, rfl⟩

theorem pollCall_isGood (c : IPCConnection) (e : Env) : (pollCall c e).isGood = c.isGood := by
  simp [pollCall, applyCalls_isGood, emit]

theorem afterWrite_writeTasks (c : IPCConnection) (e : Env) (w : WriteTask)
    (rest : List WriteTask) (hcw : canWrite e.revents = true)
    (hq : c.writeTasks ++ pushedWrites e.calls = w :: rest) :
    (afterWrite c e).writeTasks = if e.writeRet < 0 then w :: rest else rest := by
  unfold afterWrite
  rw [hcw, serviceWrite_cons _ _ w rest (by rw [pollCall_writeTasks, hq])]

theorem loopBody_writeTasks (c : IPCConnection) (e : Env) :
    (loopBody c e).1.writeTasks = (afterWrite c e).writeTasks := by
  rw [(loopBody_fields c e).2.1, afterRead, serviceRead_writeTasks]

theorem loopBody_snd_writeRet (c : IPCConnection) (e : Env) (ret : Int) :
    (loopBody c e).2 = (loopBody c { e with writeRet := ret }).2 := by
  have h := serviceRead_congr (afterWrite c e) (afterWrite c { e with writeRet := ret })
    (canRead e.revents) e.readRes (by rw [afterWrite_readTasks, afterWrite_readTasks])
  rw [loopBody_snd, loopBody_snd]
  unfold afterRead
  rw [h.1, h.2]

/-- C8: take an iteration in which the socket is writable, the write queue (with what the
callers pushed during `poll`) has the task `w` at its head, and `write` returns a negative
result. The write step makes that one `write` call and leaves the write queue and the liveness
flag as they were; after the whole pass the write queue is still the same; whether the pass
leaves the loop does not depend on what `write` returned; and when nothing else is reported
for the socket the loop goes on with the liveness flag unchanged. -/
theorem C8_fatal_write_keeps_task (c : IPCConnection) (e : Env) (w : WriteTask)
    (rest : List WriteTask) (hcw : canWrite e.revents = true)
    (hq : c.writeTasks ++ pushedWrites e.calls = w :: rest) (hret : e.writeRet < 0) :
    (afterWrite c e).writeTasks = w :: rest ∧
    (afterWrite c e).isGood = c.isGood ∧
    (afterWrite c e).trace = (pollCall c e).trace ++ [Event.write w.data w.size] ∧
    (loopBody c e).1.writeTasks = w :: rest ∧
    (∀ ret : Int, (loopBody c e).2 = (loopBody c { e with writeRet := ret }).2) ∧
    (canRead e.revents = false → e.revents &&& POLLHUP = 0 → e.revents &&& POLLERR = 0 →
      (loopBody c e).2 = false ∧ (loopBody c e).1.isGood = c.isGood ∧
      ∀ more, c.isWorkerTerminated = false →
        mainLoop c (e :: more) = mainLoop (loopBody c e).1 more) := by
  have hw : (afterWrite c e).writeTasks = w :: rest := by
    rw [afterWrite_writeTasks c e w rest hcw hq, if_pos hret]
  have hg : (afterWrite c e).isGood = c.isGood := by
    rw [afterWrite, serviceWrite_isGood, pollCall_isGood]
  refine ⟨hw, hg, ?_, ?_, loopBody_snd_writeRet c e, ?_⟩
  · rw [afterWrite, serviceWrite_trace, hcw, pollCall_writeTasks, hq]
    rfl
  · rw [loopBody_writeTasks, hw]
  · intro hcr hhup herr
    have hread : afterRead c e = (afterWrite c e, false) := by
      rw [afterRead, serviceRead_skip _ _ _ (Or.inl hcr)]
    have hb : (loopBody c e).2 = false := by
      rw [loopBody_quiet c e hhup herr, hread]
    refine ⟨hb, ?_, fun more hrun => mainLoop_continue c e more hrun hb⟩
    rw [loopBody_quiet c e hhup herr, hread]
    exact hg

/-- C8, witness: the sample connection; the socket is writable and `write` returns `-1`. -/
theorem C8_fatal_write_keeps_task_witness :
    (loopBody sampleConnection (writable (-1))).1.writeTasks = [sampleWrite] ∧
    (loopBody sampleConnection (writable (-1))).2 = false :=
  have h := C8_fatal_write_keeps_task sampleConnection (writable (-1)) sampleWrite []
    (by decide) (by decide) (by decide)
  ⟨h.2.2.2.1, (h.2.2.2.2.2 (by decide) (by decide) (by decide)).1⟩

theorem mem_head_toList {α : Type} (l : List α) (x : α) (h : x ∈ l.head?.toList) : x ∈ l := by
  cases l with
  | nil => simp at h
  | cons y rest =>
    simp only [List.head?_cons, Option.toList, List.mem_singleton] at h
    exact h ▸ List.mem_cons_self _ _

theorem mainLoop_writeCalls (c : IPCConnection) (script : List Env) :
    ∃ new, (mainLoop c script).1.trace = c.trace ++ new ∧
      ∀ ev ∈ writeCalls new,
        ∃ x ∈ c.writeTasks ++ pushedWrites (callsOf (iterationsRun c script)),
          ev = writeEvent x := by
  induction script generalizing c with
  | nil => exact ⟨[], by simp [mainLoop_nil], by simp [writeCalls]⟩
  | cons e rest ih =>
    cases ht : c.isWorkerTerminated with
    | true => exact ⟨[], by simp [mainLoop_terminated c _ ht], by simp [writeCalls]⟩
    | false =>
      obtain ⟨n1, h1, -, h3⟩ := loopBody_trace c e
      have hn1 : ∀ ev ∈ writeCalls n1,
          ∃ x ∈ c.writeTasks ++ pushedWrites e.calls, ev = writeEvent x := by
        intro ev hev
        rw [h3] at hev
        split_ifs at hev
        · obtain ⟨x, hx, rfl⟩ := List.mem_map.1 hev
          exact ⟨x, mem_head_toList _ x hx, rfl⟩
        · cases hev
      rw [mainLoop_cons c e rest ht, iterationsRun_cons c e rest ht]
      by_cases hb : (loopBody c e).2 = true
      · rw [if_pos hb, if_pos hb]
        refine ⟨n1, h1, ?_⟩
        simpa [callsOf] using hn1
      · rw [if_neg hb, if_neg hb]
        obtain ⟨n2, h4, h5⟩ := ih (loopBody c e).1
        obtain ⟨popped, -, hpop⟩ := loopBody_queue c e
        refine ⟨n1 ++ n2, by rw [h4, h1, List.append_assoc], ?_⟩
        intro ev hev
        simp only [writeCalls, List.filter_append, List.mem_append] at hev
        simp only [callsOf, pushedWrites_append, ← List.append_assoc]
        rcases hev with hev | hev
        · obtain ⟨x, hx, rfl⟩ := hn1 ev hev
          exact ⟨x, List.mem_append_left _ hx, rfl⟩
        · obtain ⟨x, hx, rfl⟩ := h5 ev hev
          refine ⟨x, ?_, rfl⟩
          rcases List.mem_append.1 hx with hx | hx
          · refine List.mem_append_left _ ?_
            rw [← hpop]
            exact List.mem_append_right _ hx
          · exact List.mem_append_right _ hx

/-- C9: take an iteration in which the socket is writable and the write queue (with what the
callers pushed during `poll`) has the task `w` at its head. Exactly one `write` call is made in
the pass, with the data and the size of `w`. If it returns a result `≥ 0`, the write queue after
the pass is the rest of the queue; in the next pass the only `write` call that can be made is
for the head of that rest (with what the callers pushed meanwhile); and every `write` call of
any later run of the loop is for a task of that rest or for a task pushed later. -/
theorem C9_successful_write_retires_once (c : IPCConnection) (e : Env) (w : WriteTask)
    (rest : List WriteTask) (hcw : canWrite e.revents = true)
    (hq : c.writeTasks ++ pushedWrites e.calls = w :: rest) :
    (∃ new, (loopBody c e).1.trace = c.trace ++ new ∧
      writeCalls new = [Event.write w.data w.size]) ∧
    (0 ≤ e.writeRet →
      (loopBody c e).1.writeTasks = rest ∧
      (∀ e2 : Env, ∃ new2, (loopBody (loopBody c e).1 e2).1.trace =
          (loopBody c e).1.trace ++ new2 ∧
        writeCalls new2 = if canWrite e2.revents = true then
          ((rest ++ pushedWrites e2.calls).head?.toList.map
            (fun x => Event.write x.data x.size)) else []) ∧
      (∀ script : List Env, ∃ later, (mainLoop (loopBody c e).1 script).1.trace =
          (loopBody c e).1.trace ++ later ∧
        ∀ ev ∈ writeCalls later,
          ∃ x ∈ rest ++ pushedWrites (callsOf (iterationsRun (loopBody c e).1 script)),
            ev = Event.write x.data x.size)) := by
  constructor
  · obtain ⟨new, h1, -, h3⟩ := loopBody_trace c e
    refine ⟨new, h1, ?_⟩
    rw [h3, if_pos hcw, hq]
    rfl
  · intro hret
    have hw : (loopBody c e).1.writeTasks = rest := by
      rw [loopBody_writeTasks, afterWrite_writeTasks c e w rest hcw hq, if_neg (by omega)]
    refine ⟨hw, ?_, ?_⟩
    · intro e2
      obtain ⟨new2, h1, -, h3⟩ := loopBody_trace (loopBody c e).1 e2
      refine ⟨new2, h1, ?_⟩
      rw [h3, hw]
      rfl
    · intro script
      obtain ⟨later, h1, h2⟩ := mainLoop_writeCalls (loopBody c e).1 script
      rw [hw] at h2
      exact ⟨later, h1, h2⟩

/-- C9, witness: a write task of 100 bytes; `write` returns 100. -/
theorem C9_successful_write_retires_once_witness :
    (loopBody writeConnection (writable 100)).1.writeTasks = [] ∧
    ∃ new2, (loopBody (loopBody writeConnection (writable 100)).1 (writable 100)).1.trace =
        (loopBody writeConnection (writable 100)).1.trace ++ new2 ∧
      writeCalls new2 = [] :=
  have h := (C9_successful_write_retires_once writeConnection (writable 100) hundredBytes []
    (by decide) (by decide)).2 (by decide)
  ⟨h.1, h.2.1 (writable 100)⟩

/-- C10: take a pass through the loop body whose poll result has the hang-up bit set and whose
read step does not leave the loop. After the pass the connection is not good. If the read
queue is empty after the read step, or the socket was not reported readable, the pass leaves
the loop. If the socket was reported readable, the read queue is not empty after the read step
and the error bit is not set, the pass does not leave the loop: control returns to the loop
condition, and the next iteration is entered unless termination has been requested. -/
theorem C10_hang_up_handling (c : IPCConnection) (e : Env)
    (hhup : e.revents &&& POLLHUP ≠ 0) (hread : (afterRead c e).2 = false) :
    (loopBody c e).1.isGood = false ∧
    (((afterRead c e).1.readTasks = [] ∨ canRead e.revents = false) →
      (loopBody c e).2 = true ∧
      ∀ more, c.isWorkerTerminated = false →
        mainLoop c (e :: more) = ((loopBody c e).1, true)) ∧
    (canRead e.revents = true → (afterRead c e).1.readTasks ≠ [] →
      e.revents &&& POLLERR = 0 →
      (loopBody c e).2 = false ∧
      (∀ more, c.isWorkerTerminated = false →
        mainLoop c (e :: more) = mainLoop (loopBody c e).1 more) ∧
      (∀ e2 more, c.isWorkerTerminated = false →
        (loopBody c e).1.isWorkerTerminated = false →
        ∃ later, iterationsRun c (e :: e2 :: more) = e :: e2 :: later)) := by
  refine ⟨?_, ?_, ?_⟩
  · rw [loopBody_isGood, if_neg (by simp [hread]), if_pos hhup]
  · intro h
    have hb : (loopBody c e).2 = true := by
      rw [loopBody_snd, hread]
      rcases h with h | h
      · simp [h, hhup]
      · simp [h, hhup]
    exact ⟨hb, fun more hrun => mainLoop_break c e more hrun hb⟩
  · intro hcr hq herr
    have hb : (loopBody c e).2 = false := by
      rw [loopBody_snd, hread, hcr]
      simp [hq, herr]
    refine ⟨hb, fun more hrun => mainLoop_continue c e more hrun hb, ?_⟩
    intro e2 more hrun hrun2
    rw [iterationsRun_cons c e _ hrun, if_neg (by simp [hb]),
      iterationsRun_cons _ e2 more hrun2]
    split_ifs
    · exact ⟨[], rfl⟩
    · exact ⟨_, rfl⟩

/-- C10, witness: hang-up is reported while the socket is readable and the head read task of
10 bytes receives 4 bytes: the connection is marked not good and the loop goes on. -/
theorem C10_hang_up_handling_witness :
    (loopBody sampleConnection (hangUpWith [1, 2, 3, 4])).1.isGood = false ∧
    (loopBody sampleConnection (hangUpWith [1, 2, 3, 4])).2 = false :=
  have h := C10_hang_up_handling sampleConnection (hangUpWith [1, 2, 3, 4])
    (by decide) (by decide)
  ⟨h.1, (h.2.2 (by decide) (by decide) (by decide)).1⟩

/-! ## Repeated hang-up reports -/

/-- C11, counterexample: the sample connection (one read task of 10 bytes); hang-up is reported
with the socket readable and one byte delivered, and then the same again. The first of these
iterations lets the loop continue, and so does the second: the statement that the next hang-up
check always leaves the loop is false. -/
theorem C11_hang_up_drain_counterexample :
    ¬ (∀ (c : IPCConnection) (e1 e2 : Env), c.isWorkerTerminated = false →
        e1.revents &&& POLLHUP ≠ 0 → (loopBody c e1).2 = false →
        e2.revents &&& POLLHUP ≠ 0 → (loopBody (loopBody c e1).1 e2).2 = true) := by
  intro h
  have h2 := h sampleConnection (hangUpWith [1]) (hangUpWith [2]) (by decide) (by decide)
    (by decide) (by decide)
  revert h2
  decide

/-- C11, amended: let an iteration with the hang-up bit set let the loop continue, and let the
next iteration be entered and report hang-up again. That iteration leaves the loop if the read
queue is empty after its read step or the socket is not reported readable. If the socket is
readable again, the read step does not leave the loop, the read queue is still not empty and
the error bit is not set, the loop continues once more (with the connection not good): the
number of iterations after the first hang-up report is not bounded by one. -/
theorem C11_hang_up_drain_amended (c : IPCConnection) (e1 e2 : Env) (more : List Env)
    (hrun : c.isWorkerTerminated = false) (_h1 : e1.revents &&& POLLHUP ≠ 0)
    (hcont : (loopBody c e1).2 = false)
    (hrun2 : (loopBody c e1).1.isWorkerTerminated = false)
    (h2 : e2.revents &&& POLLHUP ≠ 0) :
    (((afterRead (loopBody c e1).1 e2).1.readTasks = [] ∨ canRead e2.revents = false) →
      mainLoop c (e1 :: e2 :: more) = ((loopBody (loopBody c e1).1 e2).1, true)) ∧
    (canRead e2.revents = true → (afterRead (loopBody c e1).1 e2).2 = false →
      (afterRead (loopBody c e1).1 e2).1.readTasks ≠ [] → e2.revents &&& POLLERR = 0 →
      mainLoop c (e1 :: e2 :: more) = mainLoop (loopBody (loopBody c e1).1 e2).1 more ∧
      (loopBody (loopBody c e1).1 e2).1.isGood = false) := by
  have hstep := mainLoop_continue c e1 (e2 :: more) hrun hcont
  constructor
  · intro h
    have hb : (loopBody (loopBody c e1).1 e2).2 = true := by
      rw [loopBody_snd]
      rcases h with h | h
      · simp [h, h2]
      · simp [h, h2]
    rw [hstep, mainLoop_break _ e2 more hrun2 hb]
  · intro hcr hread hq herr
    have hb : (loopBody (loopBody c e1).1 e2).2 = false := by
      rw [loopBody_snd, hread, hcr]
      simp [hq, herr]
    refine ⟨by rw [hstep, mainLoop_continue _ e2 more hrun2 hb], ?_⟩
    rw [loopBody_isGood, if_neg (by simp [hread]), if_pos h2]

/-- C11, amended, witness: the sample connection; two iterations that report hang-up with the
socket readable and deliver one byte each, and a third one. -/
theorem C11_hang_up_drain_amended_witness :
    mainLoop sampleConnection [hangUpWith [1], hangUpWith [2], hangUpWith [3]] =
      mainLoop (loopBody (loopBody sampleConnection (hangUpWith [1])).1 (hangUpWith [2])).1
        [hangUpWith [3]] ∧
    (mainLoop sampleConnection [hangUpWith [1], hangUpWith [2], hangUpWith [3]]).2 = false :=
  have h := (C11_hang_up_drain_amended sampleConnection (hangUpWith [1]) (hangUpWith [2])
    [hangUpWith [3]] (by decide) (by decide) (by decide) (by decide) (by decide)).2
    (by decide) (by decide) (by decide) (by decide)
  ⟨h.1, by decide⟩

/-! ## Every exit goes through teardown -/

theorem teardown_isGood (m : IPCConnection) : (teardown m).isGood = false := by
  rw [teardown_eq]

theorem countP_isSocketCall_teardown (m : IPCConnection) :
    (teardown m).trace.countP Event.isSocketCall = m.trace.countP Event.isSocketCall := by
  simp only [teardown_eq, List.countP_append, countP_isSocketCall_closed, Nat.add_zero]

theorem afterRead_snd_iff (c : IPCConnection) (e : Env) :
    (afterRead c e).2 = true ↔
      canRead e.revents = true ∧ c.readTasks ++ pushedReads e.calls ≠ [] ∧
      e.readRes.retval ≤ 0 ∧ e.readRes.errno ≠ EAGAIN := by
  unfold afterRead
  cases hcr : canRead e.revents
  · rw [serviceRead_skip _ false _ (Or.inl rfl)]
    simp
  · cases hq : c.readTasks ++ pushedReads e.calls with
    | nil =>
      rw [serviceRead_skip _ true _ (Or.inr (by rw [afterWrite_readTasks, hq]))]
      simp
    | cons t rest =>
      rw [serviceRead_cons _ _ t rest (by rw [afterWrite_readTasks, hq])]
      by_cases hf : e.readRes.retval ≤ 0 ∧ e.readRes.errno ≠ EAGAIN
      · rw [if_pos hf]
        simpa using hf
      · rw [if_neg hf]
        split_ifs <;> simpa using hf

theorem afterRead_isGood_of_break (c : IPCConnection) (e : Env) (h : (afterRead c e).2 = true) :
    (afterRead c e).1.isGood = false := by
  obtain ⟨hcr, hq, hret, herrno⟩ := (afterRead_snd_iff c e).1 h
  cases hq' : c.readTasks ++ pushedReads e.calls with
  | nil => exact absurd hq' hq
  | cons t rest => rw [afterRead_fatal c e t rest hcr hq' hret herrno]

/-- C12: whenever the main loop is left, `workerLoop` returns the state teardown produces, in
which the connection is not good and both queues are empty. The loop is left in the iteration
it has entered if the poll result has the error bit set, if the read step fails fatally (read
result `≤ 0` with `errno` different from `EAGAIN`), or if hang-up is reported and the read
queue is empty after the read step or the socket is not readable. If the termination flag is
set when the loop condition is evaluated, the loop is left at once and `workerLoop` makes no
`poll`, `read` or `write` call: the calls it makes are the `set_exception` calls of teardown. -/
theorem C12_every_exit_reaches_teardown (c : IPCConnection) (script : List Env) :
    (∀ m, mainLoop { c with isGood := true } script = (m, true) →
      workerLoop c script = some (teardown m) ∧ (teardown m).isGood = false ∧
      (teardown m).writeTasks = [] ∧ (teardown m).readTasks = []) ∧
    (∀ c', workerLoop c script = some c' →
      c'.isGood = false ∧ c'.writeTasks = [] ∧ c'.readTasks = []) ∧
    (c.isWorkerTerminated = true →
      mainLoop c script = (c, true) ∧
      ∃ c', workerLoop c script = some c' ∧ c'.isGood = false ∧
        c'.trace = c.trace ++ c.readTasks.map
          (fun t => Event.setException t.promise "connection closed") ∧
        c'.trace.countP Event.isSocketCall = c.trace.countP Event.isSocketCall) ∧
    (c.isWorkerTerminated = false → ∀ (e : Env) (more : List Env),
      (e.revents &&& POLLERR ≠ 0 → mainLoop c (e :: more) = ((loopBody c e).1, true)) ∧
      (canRead e.revents = true → c.readTasks ++ pushedReads e.calls ≠ [] →
        e.readRes.retval ≤ 0 → e.readRes.errno ≠ EAGAIN →
        mainLoop c (e :: more) = ((loopBody c e).1, true) ∧ (loopBody c e).1.isGood = false) ∧
      (e.revents &&& POLLHUP ≠ 0 →
        ((afterRead c e).1.readTasks = [] ∨ canRead e.revents = false) →
        mainLoop c (e :: more) = ((loopBody c e).1, true) ∧ (loopBody c e).1.isGood = false) ∧
      ((loopBody { c with isGood := true } e).2 = true →
        ∃ c', workerLoop c (e :: more) = some c' ∧ c'.isGood = false ∧
          c'.writeTasks = [] ∧ c'.readTasks = [])) := by
  refine ⟨?_, ?_, ?_, ?_⟩
  · intro m hm
    exact ⟨workerLoop_eq_some c m script hm, teardown_isGood m, by simp [teardown_eq],
      by simp [teardown_eq]⟩
  · intro c' hc'
    obtain ⟨m, -, rfl⟩ := (workerLoop_some_iff c c' script).1 hc'
    exact ⟨teardown_isGood m, by simp [teardown_eq], by simp [teardown_eq]⟩
  · intro ht
    refine ⟨mainLoop_terminated c script ht, teardown { c with isGood := true },
      workerLoop_eq_some c _ script (mainLoop_terminated _ script ht), teardown_isGood _, ?_, ?_⟩
    · simp [teardown_eq, closedEvent]
    · exact countP_isSocketCall_teardown _
  · intro hrun e more
    refine ⟨?_, ?_, ?_, ?_⟩
    · intro herr
      exact mainLoop_break c e more hrun (by rw [loopBody_snd]; simp [herr])
    · intro hcr hq hret herrno
      have hbr : (afterRead c e).2 = true := (afterRead_snd_iff c e).2 ⟨hcr, hq, hret, herrno⟩
      refine ⟨mainLoop_break c e more hrun (by rw [loopBody_snd, hbr]; rfl), ?_⟩
      rw [loopBody_isGood, if_pos hbr]
      exact afterRead_isGood_of_break c e hbr
    · intro hhup hq
      refine ⟨mainLoop_break c e more hrun ?_, ?_⟩
      · rw [loopBody_snd]
        rcases hq with hq | hq
        · simp [hq, hhup]
        · simp [hq, hhup]
      · rw [loopBody_isGood]
        split_ifs with hbr
        · exact afterRead_isGood_of_break c e hbr
        · rfl
    · intro hb
      exact ⟨teardown (loopBody { c with isGood := true } e).1,
        workerLoop_eq_some c _ _ (mainLoop_break _ e more hrun hb), teardown_isGood _,
        by simp [teardown_eq], by simp [teardown_eq]⟩

/-- C12, witness: the sample connection with the termination flag already set returns without
any socket call, and the sample connection leaves the loop in an iteration that reports the
error bit. -/
theorem C12_every_exit_reaches_teardown_witness :
    (∃ c', workerLoop { sampleConnection with isWorkerTerminated := true } [deliver [1]] =
        some c' ∧ c'.isGood = false ∧
      c'.trace = [Event.setException 7 "connection closed"]) ∧
    mainLoop sampleConnection [pollError, deliver [1]] =
      ((loopBody sampleConnection pollError).1, true) :=
  ⟨((C12_every_exit_reaches_teardown { sampleConnection with isWorkerTerminated := true }
      [deliver [1]]).2.2.1 rfl).2.imp fun _ h => ⟨h.1, h.2.1, h.2.2.1⟩,
   ((C12_every_exit_reaches_teardown sampleConnection []).2.2.2 rfl pollError [deliver [1]]).1
      (by decide)⟩

/-! ## The progress counter after `read += retval` -/

theorem serviceRead_afterAdd (c : IPCConnection) (r : SockRead) (t : ReadTask)
    (rest : List ReadTask) (hq : c.readTasks = t :: rest)
    (hnf : ¬ (r.retval ≤ 0 ∧ r.errno ≠ EAGAIN)) :
    serviceRead c true r =
      if (afterAdd t r).read ≥ t.size then
        ({ c with
            readTasks := rest,
            trace := c.trace ++ [readEvent t,
              Event.setValue t.promise (cells (afterAdd t r))] }, false)
      else
        ({ c with readTasks := afterAdd t r :: rest, trace := c.trace ++ [readEvent t] },
          false) := by
  rw [serviceRead_cons c r t rest hq, if_neg hnf]
  rfl

theorem afterAdd_read_le (t : ReadTask) (r : SockRead) (hsize : t.size < SIZE_T_MOD)
    (hle : (allocate t).read ≤ t.size) (h0 : 0 ≤ r.retval)
    (hreq : r.retval ≤ bytesToRead (allocate t)) : (afterAdd t r).read ≤ t.size := by
  have hb : bytesToRead (allocate t) ≤ t.size - (allocate t).read := by
    unfold bytesToRead
    rw [allocate_size, subSizeT_of_le _ _ hle hsize]
    exact Nat.min_le_right _ _
  show addSizeT (allocate t).read r.retval ≤ t.size
  unfold addSizeT
  unfold SIZE_T_MOD at *
  omega

/-- C13, at the failing input: the head read task has size 10 and no byte received; `read`
returns `-1` (a non-positive result) with `errno` equal to `EAGAIN`. The step does not leave
the loop, and `read += retval` leaves the counter at `2 ^ 64 - 1`, which is above the size;
the test `read >= size` then retires the task. -/
theorem C13_progress_counter_exceeds_size :
    wouldBlock.readRes.retval ≤ 0 ∧
    sampleRead.size = 10 ∧
    (afterAdd sampleRead wouldBlock.readRes).read = 18446744073709551615 ∧
    ¬ (afterAdd sampleRead wouldBlock.readRes).read ≤ sampleRead.size ∧
    (serviceRead sampleConnection true wouldBlock.readRes).2 = false ∧
    (serviceRead sampleConnection true wouldBlock.readRes).1.readTasks = [] := by
  decide

/-- C15, at the failing input: the head read task has size 10; the first `read` returns `-1`
with `errno` equal to `EAGAIN`, so no byte has been delivered, and the handle is resolved with
the unwritten buffer in that iteration. When the same result follows a delivery of 4 bytes the
handle stays pending, also after 6 more bytes; it is resolved by the next byte, after 11 bytes
have been delivered into the buffer of 10. -/
theorem C15_would_block_resolves_early :
    delivered [wouldBlock] = [] ∧
    resolutions (mainLoop sampleConnection [wouldBlock]).1.trace =
      [(7, Resolution.value (List.replicate 10 none))] ∧
    (mainLoop sampleConnection [wouldBlock]).1.readTasks = [] ∧
    resolutions (mainLoop sampleConnection [deliver [1, 2, 3, 4]]).1.trace = [] ∧
    resolutions (mainLoop sampleConnection [deliver [1, 2, 3, 4], wouldBlock]).1.trace = [] ∧
    resolutions (mainLoop sampleConnection
      [deliver [1, 2, 3, 4], wouldBlock, deliver [5, 6, 7, 8, 9, 10]]).1.trace = [] ∧
    resolutions (mainLoop sampleConnection
      [deliver [1, 2, 3, 4], wouldBlock, deliver [5, 6, 7, 8, 9, 10], deliver [11]]).1.trace =
      [(7, Resolution.value [some 1, some 2, some 3, some 5, some 6, some 7, some 8, some 9,
        some 10, some 11])] := by
  decide

/-! ## Only the heads of the queues are serviced -/

theorem serviceRead_calls (c : IPCConnection) (cr : Bool) (r : SockRead) :
    ∃ new, (serviceRead c cr r).1.trace = c.trace ++ new ∧
      writeCalls new = [] ∧
      readCalls new = (if cr = true then c.readTasks.head?.toList.map readEvent else []) ∧
      ∀ x ∈ resolutions new, ∃ t, c.readTasks.head? = some t ∧ x.1 = t.promise := by
  cases cr
  · exact ⟨[], by simp [serviceRead_skip c false r (Or.inl rfl), writeCalls, readCalls,
      resolutions]⟩
  · cases hq : c.readTasks with
    | nil =>
      exact ⟨[], by simp [serviceRead_skip c true r (Or.inr hq), writeCalls, readCalls,
        resolutions]⟩
    | cons t rest =>
      rw [if_pos rfl, serviceRead_cons c r t rest hq]
      split_ifs
      · exact ⟨_, rfl, by simp [writeCalls, Event.isWrite],
          by simp [readCalls, Event.isRead, readEvent],
          by simp [resolutions, Event.resolution]⟩
      · exact ⟨_, rfl, by simp [writeCalls, Event.isWrite],
          by simp [readCalls, Event.isRead, readEvent],
          by simp [resolutions, Event.resolution]⟩
      · exact ⟨_, rfl, by simp [writeCalls, Event.isWrite],
          by simp [readCalls, Event.isRead, readEvent],
          by simp [resolutions, Event.resolution]⟩

theorem serviceRead_rest (c : IPCConnection) (cr : Bool) (r : SockRead) (t : ReadTask)
    (rest : List ReadTask) (hq : c.readTasks = t :: rest) :
    (serviceRead c cr r).1.readTasks = rest ∨
    ∃ t', (serviceRead c cr r).1.readTasks = t' :: rest ∧ t'.promise = t.promise ∧
      t'.size = t.size := by
  cases cr
  · rw [serviceRead_skip c false r (Or.inl rfl)]
    exact Or.inr ⟨t, hq, rfl, rfl⟩
  · rw [serviceRead_cons c r t rest hq]
    split_ifs
    · exact Or.inr ⟨_, rfl, allocate_promise t, allocate_size t⟩
    · exact Or.inl rfl
    · exact Or.inr ⟨_, rfl, allocate_promise t, allocate_size t⟩

theorem loopBody_calls (c : IPCConnection) (e : Env) :
    ∃ new, (loopBody c e).1.trace = c.trace ++ new ∧
      writeCalls new = (if canWrite e.revents = true then
        ((c.writeTasks ++ pushedWrites e.calls).head?.toList.map writeEvent) else []) ∧
      readCalls new = (if canRead e.revents = true then
        ((c.readTasks ++ pushedReads e.calls).head?.toList.map readEvent) else []) ∧
      ∀ x ∈ resolutions new,
        ∃ t, (c.readTasks ++ pushedReads e.calls).head? = some t ∧ x.1 = t.promise := by
  obtain ⟨new, h1, h2, h3, h4⟩ :=
    serviceRead_calls (afterWrite c e) (canRead e.revents) e.readRes
  rw [afterWrite_readTasks] at h3 h4
  have hw : ∀ l : List WriteTask,
      (l.map writeEvent).filter Event.isWrite = l.map writeEvent ∧
      (l.map writeEvent).filter Event.isRead = [] ∧
      resolutions (l.map writeEvent) = [] := by
    intro l
    induction l with
    | nil => exact ⟨rfl, rfl, rfl⟩
    | cons w rest ih =>
      refine ⟨?_, ?_, ?_⟩
      · rw [List.map_cons, List.filter_cons_of_pos (by rfl), ih.1]
      · rw [List.map_cons, List.filter_cons_of_neg (by simp [writeEvent, Event.isRead]), ih.2.1]
      · have := ih.2.2
        simp only [resolutions, List.map_cons, List.filterMap_cons] at this ⊢
        simp [writeEvent, Event.resolution]
  refine ⟨Event.poll (POLLIN ||| POLLOUT) (-1) ::
    (if canWrite e.revents = true then
      ((c.writeTasks ++ pushedWrites e.calls).head?.toList.map writeEvent) else []) ++ new,
    ?_, ?_, ?_, ?_⟩
  · rw [(loopBody_fields c e).2.2.1, afterRead, h1, afterWrite, serviceWrite_trace,
      pollCall_trace, pollCall_writeTasks]
    simp
  · simp only [writeCalls] at h2 ⊢
    rw [List.cons_append, List.filter_cons_of_neg (by simp [Event.isWrite]), List.filter_append,
      h2, List.append_nil]
    split_ifs
    · exact (hw _).1
    · rfl
  · simp only [readCalls] at h3 ⊢
    rw [List.cons_append, List.filter_cons_of_neg (by simp [Event.isRead]), List.filter_append,
      h3]
    split_ifs <;> simp [(hw _).2.1]
  · intro x hx
    apply h4 x
    have hpoll : resolutions [Event.poll (POLLIN ||| POLLOUT) (-1)] = [] := rfl
    rw [← List.singleton_append, List.append_assoc, resolutions_append, resolutions_append,
      hpoll, List.nil_append] at hx
    split_ifs at hx
    · rwa [(hw _).2.2, List.nil_append] at hx
    · simpa [resolutions] using hx

theorem length_head_toList_map {α β : Type} (l : List α) (f : α → β) :
    (l.head?.toList.map f).length ≤ 1 := by
  cases l <;> simp

/-- C14: in one pass through the loop body at most one `write` call and at most one `read` call
are made; a `write` call made is for the task at the head of the write queue and a `read` call
made is for the task at the head of the read queue (the queues as they are when `poll`
returns). The read tasks behind the head are the same records after the pass, whether the head
task is retired or stays, and the only handle the pass can resolve is that of the head task. -/
theorem C14_only_heads_serviced (c : IPCConnection) (e : Env) :
    ∃ new, (loopBody c e).1.trace = c.trace ++ new ∧
      new.countP Event.isWrite ≤ 1 ∧ new.countP Event.isRead ≤ 1 ∧
      (∀ ev ∈ new, ev.isWrite = true →
        ∃ w rest, c.writeTasks ++ pushedWrites e.calls = w :: rest ∧
          ev = Event.write w.data w.size) ∧
      (∀ ev ∈ new, ev.isRead = true →
        ∃ t rest, c.readTasks ++ pushedReads e.calls = t :: rest ∧
          ev = Event.read t.promise (allocate t).read (bytesToRead (allocate t))) ∧
      (∀ t rest, c.readTasks ++ pushedReads e.calls = t :: rest →
        ((loopBody c e).1.readTasks = rest ∨
          ∃ t', (loopBody c e).1.readTasks = t' :: rest ∧ t'.promise = t.promise ∧
            t'.size = t.size) ∧
        ∀ x ∈ resolutions new, x.1 = t.promise) ∧
      (c.readTasks ++ pushedReads e.calls = [] →
        (loopBody c e).1.readTasks = [] ∧ resolutions new = []) := by
  obtain ⟨new, h1, h2, h3, h4⟩ := loopBody_calls c e
  refine ⟨new, h1, ?_, ?_, ?_, ?_, ?_, ?_⟩
  · rw [List.countP_eq_length_filter]
    simp only [writeCalls] at h2
    rw [h2]
    split_ifs
    · exact length_head_toList_map _ _
    · simp
  · rw [List.countP_eq_length_filter]
    simp only [readCalls] at h3
    rw [h3]
    split_ifs
    · exact length_head_toList_map _ _
    · simp
  · intro ev hev hw
    have hmem : ev ∈ writeCalls new := List.mem_filter.2 ⟨hev, hw⟩
    rw [h2] at hmem
    split_ifs at hmem
    · cases hq : c.writeTasks ++ pushedWrites e.calls with
      | nil => rw [hq] at hmem; simp at hmem
      | cons w rest =>
        rw [hq] at hmem
        simp only [List.head?_cons, Option.toList, List.map_cons, List.map_nil,
          List.mem_singleton] at hmem
        exact ⟨w, rest, rfl, hmem⟩
    · cases hmem
  · intro ev hev hr
    have hmem : ev ∈ readCalls new := List.mem_filter.2 ⟨hev, hr⟩
    rw [h3] at hmem
    split_ifs at hmem
    · cases hq : c.readTasks ++ pushedReads e.calls with
      | nil => rw [hq] at hmem; simp at hmem
      | cons t rest =>
        rw [hq] at hmem
        simp only [List.head?_cons, Option.toList, List.map_cons, List.map_nil,
          List.mem_singleton] at hmem
        exact ⟨t, rest, rfl, hmem⟩
    · cases hmem
  · intro t rest hq
    constructor
    · rw [(loopBody_fields c e).1, afterRead]
      exact serviceRead_rest _ _ _ t rest (by rw [afterWrite_readTasks, hq])
    · intro x hx
      obtain ⟨t', ht', hx'⟩ := h4 x hx
      rw [hq] at ht'
      simp only [List.head?_cons, Option.some.injEq] at ht'
      rw [hx', ← ht']
  · intro hq
    constructor
    · rw [(loopBody_fields c e).1, afterRead,
        serviceRead_skip _ _ _ (Or.inr (by rw [afterWrite_readTasks, hq]))]
      rw [afterWrite_readTasks, hq]
    · cases hres : resolutions new with
      | nil => rfl
      | cons x xs =>
        obtain ⟨t', ht', -⟩ := h4 x (by rw [hres]; exact List.mem_cons_self _ _)
        rw [hq] at ht'
        simp at ht'

/-- C14, witness: two read tasks of size 5 and one delivery of 5 bytes: the handle of the first
is resolved with the 5 bytes and the second task is left as it was, without a buffer and with
progress 0. -/
theorem C14_only_heads_serviced_witness :
    (loopBody twoReads (deliver [1, 2, 3, 4, 5])).1.readTasks = [ReadTask.mk 5 2 none 0] ∧
    resolutions (loopBody twoReads (deliver [1, 2, 3, 4, 5])).1.trace =
      [(1, Resolution.value [some 1, some 2, some 3, some 4, some 5])] ∧
    ∃ new, (loopBody twoReads (deliver [1, 2, 3, 4, 5])).1.trace = twoReads.trace ++ new ∧
      new.countP Event.isWrite ≤ 1 ∧ new.countP Event.isRead ≤ 1 :=
  ⟨by decide, by decide,
   (C14_only_heads_serviced twoReads (deliver [1, 2, 3, 4, 5])).imp
     fun _ h => ⟨h.1, h.2.1, h.2.2.1⟩⟩

/-! ## Read calls stay inside the buffer -/

theorem subSizeT_le_sub (a b : Nat) (h : b ≤ a) : subSizeT a b ≤ a - b := by
  unfold subSizeT SIZE_T_MOD
  omega

theorem allocate_read_le (t : ReadTask) (h : t.inBounds) : (allocate t).read ≤ t.size := by
  unfold allocate
  rcases hb : t.buffer with _ | b
  · exact Nat.zero_le _
  · rcases h with h | h
    · rw [hb] at h; cases h
    · exact h

theorem readEvent_inBounds (t : ReadTask) (h : t.inBounds) :
    (allocate t).read + bytesToRead (allocate t) ≤ t.size := by
  have h1 := allocate_read_le t h
  have h2 : bytesToRead (allocate t) ≤ t.size - (allocate t).read := by
    unfold bytesToRead
    rw [allocate_size]
    exact le_trans (Nat.min_le_right _ _) (subSizeT_le_sub _ _ h1)
  omega

theorem allocate_cells_length (t : ReadTask) (h : t.buffer = none) :
    (cells (allocate t)).length = t.size := by
  rw [allocate_of_none t h]
  simp [cells]

theorem pushedReads_inBounds (calls : List Call) : ∀ t ∈ pushedReads calls, t.inBounds := by
  induction calls with
  | nil => intro t ht; cases ht
  | cons x rest ih =>
    intro t ht
    cases x with
    | enqueueRead size promise =>
      rcases List.mem_cons.1 ht with rfl | ht
      · exact Or.inl rfl
      · exact ih t ht
    | enqueueWrite data size => exact ih t ht
    | requestTermination => exact ih t ht

theorem serviceRead_inBounds (c : IPCConnection) (cr : Bool) (r : SockRead)
    (h : ∀ t ∈ c.readTasks, t.inBounds) :
    ∀ t ∈ (serviceRead c cr r).1.readTasks, t.inBounds := by
  cases cr
  · rw [serviceRead_skip c false r (Or.inl rfl)]
    exact h
  · cases hq : c.readTasks with
    | nil =>
      rw [serviceRead_skip c true r (Or.inr hq), hq]
      intro t ht
      cases ht
    | cons t rest =>
      rw [hq] at h
      have ht := allocate_read_le t (h t (List.mem_cons_self _ _))
      have hrest : ∀ x ∈ rest, x.inBounds := fun x hx => h x (List.mem_cons_of_mem _ hx)
      rw [serviceRead_cons c r t rest hq]
      split_ifs with h1 h2
      · intro x hx
        rcases List.mem_cons.1 hx with rfl | hx
        · exact Or.inr (by rw [allocate_size]; exact ht)
        · exact hrest x hx
      · exact hrest
      · intro x hx
        rcases List.mem_cons.1 hx with rfl | hx
        · exact Or.inr (by
            show addSizeT (allocate t).read r.retval ≤ (allocate t).size
            rw [allocate_size]
            omega)
        · exact hrest x hx

theorem loopBody_inBounds (c : IPCConnection) (e : Env)
    (h : ∀ t ∈ c.readTasks, t.inBounds) :
    ∀ t ∈ (loopBody c e).1.readTasks, t.inBounds := by
  rw [(loopBody_fields c e).1, afterRead]
  apply serviceRead_inBounds
  rw [afterWrite_readTasks]
  intro t ht
  rcases List.mem_append.1 ht with ht | ht
  · exact h t ht
  · exact pushedReads_inBounds _ t ht

theorem loopBody_same_tasks (c : IPCConnection) (e : Env) :
    ∀ t' ∈ (loopBody c e).1.readTasks,
      ∃ t ∈ c.readTasks ++ pushedReads e.calls, t.promise = t'.promise ∧ t.size = t'.size := by
  intro t' ht'
  rw [(loopBody_fields c e).1, afterRead] at ht'
  cases hq : c.readTasks ++ pushedReads e.calls with
  | nil =>
    rw [serviceRead_skip _ _ _ (Or.inr (by rw [afterWrite_readTasks, hq])),
      afterWrite_readTasks, hq] at ht'
    cases ht'
  | cons t rest =>
    rcases serviceRead_rest (afterWrite c e) (canRead e.revents) e.readRes t rest
      (by rw [afterWrite_readTasks, hq]) with h | ⟨t1, h, hp, hs⟩
    · rw [h] at ht'
      exact ⟨t', List.mem_cons_of_mem _ ht', rfl, rfl⟩
    · rw [h] at ht'
      rcases List.mem_cons.1 ht' with rfl | ht'
      · exact ⟨t, List.mem_cons_self _ _, hp.symm, hs.symm⟩
      · exact ⟨t', List.mem_cons_of_mem _ ht', rfl, rfl⟩

theorem loopBody_reads_inBounds (c : IPCConnection) (e : Env)
    (h : ∀ t ∈ c.readTasks, t.inBounds) :
    ∃ new, (loopBody c e).1.trace = c.trace ++ new ∧
      ∀ p off len, Event.read p off len ∈ new →
        ∃ t ∈ c.readTasks ++ pushedReads e.calls, t.promise = p ∧ off + len ≤ t.size := by
  obtain ⟨new, h1, -, h3, -⟩ := loopBody_calls c e
  refine ⟨new, h1, ?_⟩
  intro p off len hmem
  have hr : Event.read p off len ∈ readCalls new := List.mem_filter.2 ⟨hmem, rfl⟩
  rw [h3] at hr
  split_ifs at hr
  · obtain ⟨t, ht, heq⟩ := List.mem_map.1 hr
    have htq := mem_head_toList _ t ht
    have hin : t.inBounds := by
      rcases List.mem_append.1 htq with hm | hm
      · exact h t hm
      · exact pushedReads_inBounds _ t hm
    simp only [readEvent, Event.read.injEq] at heq
    obtain ⟨rfl, rfl, rfl⟩ := heq
    exact ⟨t, htq, rfl, readEvent_inBounds t hin⟩
  · cases hr

theorem mainLoop_reads_inBounds (c : IPCConnection) (script : List Env)
    (h : ∀ t ∈ c.readTasks, t.inBounds) :
    ∃ new, (mainLoop c script).1.trace = c.trace ++ new ∧
      ∀ p off len, Event.read p off len ∈ new →
        ∃ t ∈ c.readTasks ++ pushedReads (callsOf (iterationsRun c script)),
          t.promise = p ∧ off + len ≤ t.size := by
  induction script generalizing c with
  | nil => exact ⟨[], by simp [mainLoop_nil], by intro p off len hm; cases hm⟩
  | cons e rest ih =>
    cases ht : c.isWorkerTerminated with
    | true =>
      exact ⟨[], by simp [mainLoop_terminated c _ ht], by intro p off len hm; cases hm⟩
    | false =>
      obtain ⟨n1, h1, h2⟩ := loopBody_reads_inBounds c e h
      rw [mainLoop_cons c e rest ht, iterationsRun_cons c e rest ht]
      by_cases hb : (loopBody c e).2 = true
      · rw [if_pos hb, if_pos hb]
        refine ⟨n1, h1, ?_⟩
        simpa [callsOf] using h2
      · rw [if_neg hb, if_neg hb]
        obtain ⟨n2, h3, h4⟩ := ih (loopBody c e).1 (loopBody_inBounds c e h)
        refine ⟨n1 ++ n2, by rw [h3, h1, List.append_assoc], ?_⟩
        intro p off len hm
        simp only [callsOf, pushedReads_append, ← List.append_assoc]
        rcases List.mem_append.1 hm with hm | hm
        · obtain ⟨t, ht1, ht2⟩ := h2 p off len hm
          exact ⟨t, List.mem_append_left _ ht1, ht2⟩
        · obtain ⟨t, ht1, hp, hle⟩ := h4 p off len hm
          rcases List.mem_append.1 ht1 with hx | hx
          · obtain ⟨t0, ht0, hp0, hs0⟩ := loopBody_same_tasks c e t hx
            exact ⟨t0, List.mem_append_left _ ht0, hp0.trans hp, by rw [hs0]; exact hle⟩
          · exact ⟨t, List.mem_append_right _ hx, hp, hle⟩

/-- C16: start the main loop in a state in which every queued read task either has no buffer
yet or has a progress counter that does not exceed its size. Then, whatever `poll`, `read` and
`write` return, every `_socket->read` call made during the run is made for a read task that was
queued at the start or enqueued during the run, and its offset and length satisfy
`offset + length ≤ size` for the size of that task; the buffer allocated for a task has
exactly `size` cells. -/
theorem C16_read_calls_inside_buffer (c : IPCConnection) (script : List Env)
    (h : ∀ t ∈ c.readTasks, t.inBounds) :
    (∃ new, (mainLoop c script).1.trace = c.trace ++ new ∧
      ∀ p off len, Event.read p off len ∈ new →
        ∃ t ∈ c.readTasks ++ pushedReads (callsOf (iterationsRun c script)),
          t.promise = p ∧ off + len ≤ t.size) ∧
    (∀ t : ReadTask, t.buffer = none → (cells (allocate t)).length = t.size) ∧
    (∀ t : ReadTask, t.inBounds →
      (allocate t).read + bytesToRead (allocate t) ≤ t.size) :=
  ⟨mainLoop_reads_inBounds c script h, allocate_cells_length, readEvent_inBounds⟩

/-- C16, witness: the sample connection; 4 bytes are delivered, `read` returns `-1` with
`EAGAIN`, 6 bytes are delivered. -/
theorem C16_read_calls_inside_buffer_witness :
    (∀ t ∈ sampleConnection.readTasks, t.inBounds) ∧
    ∃ new, (mainLoop sampleConnection
        [deliver [1, 2, 3, 4], wouldBlock, deliver [5, 6, 7, 8, 9, 10]]).1.trace =
        sampleConnection.trace ++ new ∧
      ∀ p off len, Event.read p off len ∈ new →
        ∃ t ∈ sampleConnection.readTasks ++ pushedReads (callsOf (iterationsRun
            sampleConnection [deliver [1, 2, 3, 4], wouldBlock, deliver [5, 6, 7, 8, 9, 10]])),
          t.promise = p ∧ off + len ≤ t.size :=
  ⟨by decide,
   (C16_read_calls_inside_buffer sampleConnection
      [deliver [1, 2, 3, 4], wouldBlock, deliver [5, 6, 7, 8, 9, 10]] (by decide)).1⟩

/-! ## A read that returns 0 -/

theorem store_nil (buf : List (Option Byte)) (off : Nat) : store buf off [] = buf := by
  simp [store]

theorem addSizeT_zero (r : Nat) (h : r < SIZE_T_MOD) : addSizeT r 0 = r := by
  unfold addSizeT SIZE_T_MOD at *
  omega

theorem allocate_buffer (t : ReadTask) : (allocate t).buffer = some (cells (allocate t)) := by
  unfold allocate cells
  rcases hb : t.buffer with _ | b
  · rfl
  · simp [hb]

theorem allocate_read_lt (t : ReadTask) (h : t.read < SIZE_T_MOD) :
    (allocate t).read < SIZE_T_MOD := by
  unfold allocate
  rcases hb : t.buffer with _ | b
  · show 0 < SIZE_T_MOD
    unfold SIZE_T_MOD
    omega
  · exact h

theorem afterAdd_zero (t : ReadTask) (r : SockRead) (hret : r.retval = 0)
    (h : t.read < SIZE_T_MOD) : afterAdd t r = allocate t := by
  unfold afterAdd
  simp only [hret, Int.toNat_zero, List.take_zero, store_nil,
    addSizeT_zero _ (allocate_read_lt t h), ← allocate_buffer]

/-- C17, counterexample: a read task of size 0 at the head of the queue, for which `read`
returns `0` with `errno` equal to `EAGAIN`, does not stay in the queue: it is popped and its
handle is resolved. And a result of `0` with `EAGAIN` is not handled as a result of `-1` with
`EAGAIN` is: after 4 of 10 bytes the first leaves the counter at 4 and the second leaves it
at 3. -/
theorem C17_end_of_stream_counterexample :
    ¬ (∀ (c : IPCConnection) (r : SockRead), c.readTasks ≠ [] → r.retval = 0 →
        r.errno = EAGAIN →
        handlesOf (serviceRead c true r).1.readTasks = handlesOf c.readTasks ∧
        resolutions (serviceRead c true r).1.trace = resolutions c.trace) ∧
    ¬ (∀ c : IPCConnection,
        serviceRead c true zeroAgain.readRes = serviceRead c true wouldBlock.readRes) := by
  constructor
  · intro h
    have h2 := h emptyRead zeroAgain.readRes (by decide) (by decide) (by decide)
    revert h2
    decide
  · intro h
    have h2 := h (mainLoop sampleConnection [deliver [1, 2, 3, 4]]).1
    revert h2
    decide

/-- C17, amended: take an iteration the loop enters in which the socket is readable, the read
queue (with what the callers pushed during `poll`) has the task `t` at its head, and `read`
returns `0`. The read step leaves the loop exactly when `errno` is different from `EAGAIN`, and
then the connection is not good. The one `read` call made is for `t`, and its length is 0 when
the size of `t` is 0. When `errno` equals `EAGAIN` the liveness flag is not changed and the
counter of `t` keeps its value; if that value is below the size, `t` stays at the head and
nothing is resolved; if it has reached the size, as for a task of size 0, `t` is popped and its
handle is resolved with its buffer; and when neither hang-up nor error is reported the loop
goes on. -/
theorem C17_end_of_stream_amended (c : IPCConnection) (e : Env) (more : List Env)
    (t : ReadTask) (rest : List ReadTask) (hrun : c.isWorkerTerminated = false)
    (hcr : canRead e.revents = true) (hq : c.readTasks ++ pushedReads e.calls = t :: rest)
    (hret : e.readRes.retval = 0) (hread : t.read < SIZE_T_MOD) :
    ((afterRead c e).2 = true ↔ e.readRes.errno ≠ EAGAIN) ∧
    (e.readRes.errno ≠ EAGAIN →
      mainLoop c (e :: more) = ((afterRead c e).1, true) ∧ (afterRead c e).1.isGood = false) ∧
    (∃ after, (afterRead c e).1.trace = (afterWrite c e).trace ++
        Event.read t.promise (allocate t).read (bytesToRead (allocate t)) :: after ∧
      readCalls after = []) ∧
    (t.size = 0 → t.inBounds → bytesToRead (allocate t) = 0) ∧
    (e.readRes.errno = EAGAIN →
      (afterRead c e).1.isGood = c.isGood ∧
      ((allocate t).read < t.size →
        (afterRead c e).1.readTasks = allocate t :: rest ∧
        resolutions (afterRead c e).1.trace = resolutions c.trace) ∧
      (t.size ≤ (allocate t).read →
        (afterRead c e).1.readTasks = rest ∧
        resolutions (afterRead c e).1.trace = resolutions c.trace ++
          [(t.promise, Resolution.value (cells (allocate t)))]) ∧
      (e.revents &&& POLLHUP = 0 → e.revents &&& POLLERR = 0 →
        mainLoop c (e :: more) = mainLoop (afterRead c e).1 more)) := by
  have hq' : (afterWrite c e).readTasks = t :: rest := by rw [afterWrite_readTasks, hq]
  have hne : c.readTasks ++ pushedReads e.calls ≠ [] := by rw [hq]; simp
  have hfatal : (afterRead c e).2 = true ↔ e.readRes.errno ≠ EAGAIN := by
    rw [afterRead_snd_iff]
    constructor
    · intro h; exact h.2.2.2
    · intro h; exact ⟨hcr, hne, by omega, h⟩
  refine ⟨hfatal, ?_, ?_, ?_, ?_⟩
  · intro herrno
    have h := fatal_read_leaves_loop c e more t rest hrun hcr hq (by omega) herrno
    exact ⟨h.1, h.2.1⟩
  · unfold afterRead
    rw [hcr, serviceRead_cons _ _ t rest hq']
    split_ifs
    · exact ⟨[], rfl, rfl⟩
    · exact ⟨_, rfl, by simp [readCalls, Event.isRead]⟩
    · exact ⟨[], rfl, rfl⟩
  · intro hs hin
    have h := readEvent_inBounds t hin
    omega
  · intro herrno
    have hnf : ¬ (e.readRes.retval ≤ 0 ∧ e.readRes.errno ≠ EAGAIN) := fun h => h.2 herrno
    have hstep := serviceRead_afterAdd (afterWrite c e) e.readRes t rest hq' hnf
    rw [afterAdd_zero t e.readRes hret hread] at hstep
    have hgood : (afterWrite c e).isGood = c.isGood := by
      rw [afterWrite, serviceWrite_isGood, pollCall_isGood]
    have hb : (afterRead c e).2 = false := by
      cases hx : (afterRead c e).2
      · rfl
      · exact absurd herrno (hfatal.1 hx)
    refine ⟨?_, ?_, ?_, ?_⟩
    · unfold afterRead
      rw [hcr, hstep]
      split_ifs <;> exact hgood
    · intro hlt
      unfold afterRead
      rw [hcr, hstep, if_neg (by omega)]
      refine ⟨rfl, ?_⟩
      simp only [resolutions_append, afterWrite_resolutions]
      simp [resolutions, readEvent, Event.resolution]
    · intro hge
      unfold afterRead
      rw [hcr, hstep, if_pos hge]
      refine ⟨rfl, ?_⟩
      simp only [resolutions_append, afterWrite_resolutions]
      simp [resolutions, readEvent, Event.resolution]
    · intro hhup herr
      have hbody : (loopBody c e).2 = false := by rw [loopBody_quiet c e hhup herr, hb]
      rw [mainLoop_continue c e more hrun hbody, loopBody_quiet c e hhup herr]

/-- C17, amended, witness: the connection with only a read task of size 0; `read` is called
with length 0 and returns `0` with `errno` equal to `EAGAIN`: the task is retired. -/
theorem C17_end_of_stream_amended_witness :
    (afterRead emptyRead zeroAgain).2 = false ∧
    (afterRead emptyRead zeroAgain).1.readTasks = [] ∧
    resolutions (afterRead emptyRead zeroAgain).1.trace = [(3, Resolution.value [])] :=
  have h := C17_end_of_stream_amended emptyRead zeroAgain [] (ReadTask.mk 0 3 none 0) []
    (by decide) (by decide) (by decide) (by decide) (by decide)
  have h5 := (h.2.2.2.2 (by decide)).2.2.1 (by decide)
  ⟨by decide, h5.1, h5.2⟩

end ulalaca.ipc
